import Mathlib

/-! # Draw-Binary-Tree: a shallow embedding of `Draw Tree/main.cpp`

The program builds a small binary tree of integers and draws it: edges as
lines, nodes as circles with a centred label.  The drawing surface is modelled
as an append-only list of primitive commands; the function-local `static int
iDepth` of `DrawNode` is modelled by explicit state passing.

Coordinates: the source mixes `CPoint` (int) and `CfPoint` (floating point).
Every floating-point coordinate the program computes is an integer of small
magnitude (an `int` converted, plus or minus `int`s), so both are modelled by
integer pairs.
-/

namespace DrawBinaryTree

/-! ## Constants (main.cpp 25-28) -/

/-- Source constant `iRadius`. -/
def iRadius : Int := 12

/-- Source constant `iMaxDepth` ("Max Tree Depth"). -/
def iMaxDepth : Int := 4

/-- Source constant `iHeight` ("Height between nodes"). -/
def iHeight : Int := 60

/-- Source constant `iDist`, written `10*2` in the source. -/
def iDist : Int := 10 * 2

/-! ## Data model -/

/-- A value of type `stNode_t *`: either the null pointer or a node holding
`iData` and the two child pointers `pLeft`, `pRight` (main.cpp 36-49). -/
inductive stNode_t where
  | null : stNode_t
  | node (iData : Int) (pLeft pRight : stNode_t) : stNode_t
  deriving DecidableEq, Repr

/-- The pointer test `if (p)` of the source. -/
def stNode_t.nonNull : stNode_t → Bool
  | .null => false
  | .node _ _ _ => true

/-- An integer point (`CPoint`, `CSize`). -/
structure CPoint where
  x : Int
  y : Int
  deriving DecidableEq, Repr

/-- A `CfPoint` of the source; all its values in this program are integers. -/
abbrev CfPoint := CPoint

/-- The primitive calls made on the window.  The colour and font arguments are
compile-time constants of the source and are left out.  The text of a `Write`
is the decimal rendering of an `int`, represented by that integer. -/
inductive Cmd where
  | DrawLine (p1 p2 : CfPoint) : Cmd
  | DrawCircle (c : CfPoint) (r : Int) : Cmd
  | Write (p : CfPoint) (cs : Int) : Cmd
  deriving DecidableEq, Repr

/-- What the program reads from the window: the width `GetWindowSize().cx` and
the measured size `GetTextSize(GetFont(sTextFont), cs)` of the text of a value. -/
structure CWindow where
  cx : Int
  GetTextSize : Int → CPoint

/-! ## Tree construction (main.cpp 44-48, 134-140) -/

/-- Method `stNode_t::AddNode` called through a pointer: a child is allocated and
aggregate-assigned `{value}` (so its own children are null) only when the value is
positive; otherwise the child pointer is left as it was.  Calling it through
a null pointer has no defined result. -/
def AddNode : stNode_t → Int → Int → Option stNode_t
  | .null, _, _ => none
  | .node iData pLeft pRight, iLeft, iRight =>
    some (.node iData
      (if iLeft > 0 then .node iLeft .null .null else pLeft)
      (if iRight > 0 then .node iRight .null .null else pRight))

/-- Direction of a child pointer: `pLeft` or `pRight`. -/
inductive Dir where
  | L : Dir
  | R : Dir
  deriving DecidableEq, Repr

/-- Apply `f` to the node reached by following the child pointers of `path`,
as in `stNode.pRight->pRight->AddNode(...)`; fails on a null pointer on the way. -/
def updateAt (f : stNode_t → Option stNode_t) : List Dir → stNode_t → Option stNode_t
  | [], t => f t
  | _ :: _, .null => none
  | .L :: ds, .node v l r => (updateAt f ds l).map (fun l1 => .node v l1 r)
  | .R :: ds, .node v l r => (updateAt f ds r).map (fun r1 => .node v l r1)

/-- The tree built by `main` (main.cpp 134-140). -/
def mainTree : Option stNode_t :=
  (some (stNode_t.node 1 .null .null))
    |>.bind (updateAt (fun n => AddNode n 2 3) [])
    |>.bind (updateAt (fun n => AddNode n 4 5) [.L])
    |>.bind (updateAt (fun n => AddNode n 6 7) [.R])
    |>.bind (updateAt (fun n => AddNode n 8 (-1)) [.R, .R])
    |>.bind (updateAt (fun n => AddNode n 9 10) [.L, .L])
    |>.bind (updateAt (fun n => AddNode n 11 12) [.L, .R])

/-! ## Drawing (main.cpp 55-119) -/

/-- The value of `(int) pow(2,(double) e)` for an `int` exponent `e`: the power
of two when `e ≥ 0`, and `0` (the truncation of a fraction in `(0,1)`) when
`e < 0`.  (For `e ≥ 31` the C conversion is out of range; the program only
reaches exponents `1..4`.) -/
def intPow2 (e : Int) : Int :=
  if e < 0 then 0 else 2 ^ e.toNat

/-- Line 82: `int iAddDist = (int) pow(2,(double) (iMaxDepth-iDepth))*iDist/2;`
with C's left-to-right `*` and `/` and truncating division. -/
def iAddDist (iDepth : Int) : Int :=
  Int.tdiv (intPow2 (iMaxDepth - iDepth) * iDist) 2

/-- Function `PrintText`: for a non-null node, write the value so that the
measured text box is centred on `pLoc` (`pLoc - szSize/2`). -/
def PrintText (cWin : CWindow) : stNode_t → CfPoint → List Cmd
  | .null, _ => []
  | .node iData _ _, pLoc =>
    let szSize := cWin.GetTextSize iData
    [Cmd.Write ⟨pLoc.x - Int.tdiv szSize.x 2, pLoc.y - Int.tdiv szSize.y 2⟩ iData]

/-- Function `DrawNode`.  The third argument and the second component of the
result are the value of the function-local `static int iDepth` before and
after the call; the first component is the list of commands emitted. -/
def DrawNode (cWin : CWindow) : stNode_t → CfPoint → Int → List Cmd × Int
  | .null, _, iDepth => ([], iDepth)
  | .node _ l r, pPos, iDepth0 =>
    let iAdd := iAddDist iDepth0
    let iDepth1 := iDepth0 + 1
    let pLeft : CfPoint := ⟨pPos.x + (-iAdd), pPos.y + iHeight⟩
    let pRight : CfPoint := ⟨pPos.x + iAdd, pPos.y + iHeight⟩
    let lineL := if l.nonNull then [Cmd.DrawLine pPos pLeft] else []
    let lineR := if r.nonNull then [Cmd.DrawLine pPos pRight] else []
    let recL := if iDepth1 < iMaxDepth then DrawNode cWin l pLeft iDepth1 else ([], iDepth1)
    let recR := if recL.2 < iMaxDepth then DrawNode cWin r pRight recL.2 else ([], recL.2)
    let circL := if l.nonNull then [Cmd.DrawCircle pLeft iRadius] else []
    let circR := if r.nonNull then [Cmd.DrawCircle pRight iRadius] else []
    (lineL ++ lineR ++ recL.1 ++ recR.1 ++ circL ++ circR
        ++ PrintText cWin l pLeft ++ PrintText cWin r pRight,
      recR.2 - 1)

/-- Function `DrawTree`.  The parameter `iDepth` is the (unused) second
argument of the source; `sDepth` is the value of `DrawNode`'s static counter
when the call starts, returned updated in the second component. -/
def DrawTree (cWin : CWindow) (iDepth : Int) (stNode : stNode_t) (sDepth : Int) :
    List Cmd × Int :=
  let _unused := iDepth
  let pPos : CfPoint := ⟨Int.tdiv cWin.cx 2, iRadius + 65⟩
  let r := DrawNode cWin stNode pPos sDepth
  (r.1 ++ [Cmd.DrawCircle pPos iRadius] ++ PrintText cWin stNode pPos, r.2)

/-- The window of `main`: 700 wide; the text size is a free parameter. -/
def mainWindow (sz : Int → CPoint) : CWindow := ⟨700, sz⟩

/-- A window 700 wide, as in `main`, whose texts all measure 8 by 16. -/
def sampleWindow : CWindow := mainWindow (fun _ => ⟨8, 16⟩)

/-! ## Specification vocabulary -/

/-- The literal value of the tree `main` builds (see `mainTree_eq`). -/
def sampleTree : stNode_t :=
  .node 1
    (.node 2
      (.node 4 (.node 9 .null .null) (.node 10 .null .null))
      (.node 5 (.node 11 .null .null) (.node 12 .null .null)))
    (.node 3
      (.node 6 .null .null)
      (.node 7 (.node 8 .null .null) .null))

/-- A left chain with nodes at depths 0..5 (values 1..6). -/
def deepTree : stNode_t :=
  .node 1 (.node 2 (.node 3 (.node 4 (.node 5 (.node 6 .null .null) .null) .null) .null)
    .null) .null

/-- The pointer reached from `t` by following the child pointers of a path;
null as soon as a pointer on the way is null. -/
def subtree : stNode_t → List Dir → stNode_t
  | t, [] => t
  | .null, _ :: _ => .null
  | .node _ l _, .L :: ds => subtree l ds
  | .node _ _ r, .R :: ds => subtree r ds

/-- The anchor `DrawNode` computes for a child (lines 86-87) when it runs at
`pPos` with counter value `iDepth`. -/
def childAnchor (pPos : CfPoint) (iDepth : Int) : Dir → CfPoint
  | .L => ⟨pPos.x + (-(iAddDist iDepth)), pPos.y + iHeight⟩
  | .R => ⟨pPos.x + iAddDist iDepth, pPos.y + iHeight⟩

/-- The anchor of the node at a path below a node anchored at `pPos` on which
`DrawNode` runs with counter value `iDepth`. -/
def anchorAt : CfPoint → Int → List Dir → CfPoint
  | pPos, _, [] => pPos
  | pPos, iDepth, d :: ds => anchorAt (childAnchor pPos iDepth d) (iDepth + 1) ds

/-- The start point chosen by `DrawTree` (line 111). -/
def rootAnchor (cWin : CWindow) : CfPoint := ⟨Int.tdiv cWin.cx 2, iRadius + 65⟩

/-- Centres of the circles of a command sequence, in order. -/
def circleCentres : List Cmd → List CfPoint
  | [] => []
  | .DrawCircle c _ :: cs => c :: circleCentres cs
  | _ :: cs => circleCentres cs

/-- Positions and texts (node values) of the `Write` commands of a command
sequence, in order. -/
def labels : List Cmd → List (CfPoint × Int)
  | [] => []
  | .Write p v :: cs => (p, v) :: labels cs
  | _ :: cs => labels cs

/-- The position and text `PrintText` writes for a node of value `v` anchored
at `a`: the text box of the value, centred on `a`. -/
def labelAt (cWin : CWindow) (a : CfPoint) (v : Int) : CfPoint × Int :=
  (⟨a.x - Int.tdiv (cWin.GetTextSize v).x 2, a.y - Int.tdiv (cWin.GetTextSize v).y 2⟩, v)

/-- Total horizontal reach of the anchors below a node on which `DrawNode`
runs with counter value `s`: the sum of the offsets of the levels below. -/
def span (s : Int) : Int := 2 * iAddDist s - iDist

/-- Paths of length `1..k` from `t` to existing nodes (`childPaths`), and
paths of length `0..k` (`nodePaths`). -/
def childPaths : stNode_t → Nat → List (List Dir)
  | .null, _ => []
  | .node _ _ _, 0 => []
  | .node _ l r, k + 1 =>
    (if l.nonNull then [] :: childPaths l k else []).map (fun p => Dir.L :: p)
      ++ (if r.nonNull then [] :: childPaths r k else []).map (fun p => Dir.R :: p)

/-- Paths of length `0..k` from `t` to existing nodes. -/
def nodePaths (t : stNode_t) (k : Nat) : List (List Dir) :=
  if t.nonNull then [] :: childPaths t k else []

/-- The value stored in a node (`0` for the null pointer, which has none). -/
def stNode_t.value : stNode_t → Int
  | .null => 0
  | .node v _ _ => v

/-- Cut the tree below depth `k`: nodes at depth `k` lose their children. -/
def truncate : Nat → stNode_t → stNode_t
  | _, .null => .null
  | 0, .node v _ _ => .node v .null .null
  | k + 1, .node v l r => .node v (truncate k l) (truncate k r)

/-- The shape of a command sequence around the circle of the node anchored at
`A`: no other circle at `A`, every later line entirely to the right of the
circle (both endpoints at least `2 * iDist = 40` right of `A`, the radius being
12), the commands `sub` as a block before the circle and the commands `lbl`
after it. -/
def MarkerSplit (out : List Cmd) (A : CfPoint) (sub lbl pre post : List Cmd) : Prop :=
  out = pre ++ Cmd.DrawCircle A iRadius :: post
    ∧ (∀ r, Cmd.DrawCircle A r ∉ pre)
    ∧ (∀ r, Cmd.DrawCircle A r ∉ post)
    ∧ (∀ a b, Cmd.DrawLine a b ∈ post → A.x + 2 * iDist ≤ a.x ∧ A.x + 2 * iDist ≤ b.x)
    ∧ sub <:+: pre
    ∧ lbl ⊆ post

/-- Configuration constants of the layout, as the specification names them. -/
structure LayoutConfig where
  maxDepth : Nat
  baseDistance : Nat
  levelHeight : Int
  radius : Int

/-- The constants of the source: `iMaxDepth`, `iDist`, `iHeight`, `iRadius`. -/
def sourceConfig : LayoutConfig := ⟨4, 20, 60, 12⟩

/-- The depth-parameterised algorithm `DrawNode(anchor, node, depth)` as the
specification words it (steps 1-6): return on an absent node; offset
`2^(maxDepth - depth) * baseDistance / 2`; child anchors one level lower;
edges to existing children; recursion into left then right with `depth + 1`
iff `depth + 1 < maxDepth`; then the child markers and the child labels. -/
def specDrawNode (cfg : LayoutConfig) (cWin : CWindow) : stNode_t → CfPoint → Nat → List Cmd
  | .null, _, _ => []
  | .node _ l r, anchor, depth =>
    let offset : Int := ((2 ^ (cfg.maxDepth - depth) * cfg.baseDistance / 2 : Nat) : Int)
    let left : CfPoint := ⟨anchor.x - offset, anchor.y + cfg.levelHeight⟩
    let right : CfPoint := ⟨anchor.x + offset, anchor.y + cfg.levelHeight⟩
    (if l.nonNull then [Cmd.DrawLine anchor left] else [])
      ++ (if r.nonNull then [Cmd.DrawLine anchor right] else [])
      ++ (if depth + 1 < cfg.maxDepth then
            specDrawNode cfg cWin l left (depth + 1) ++ specDrawNode cfg cWin r right (depth + 1)
          else [])
      ++ (if l.nonNull then [Cmd.DrawCircle left cfg.radius] else [])
      ++ (if r.nonNull then [Cmd.DrawCircle right cfg.radius] else [])
      ++ PrintText cWin l left
      ++ PrintText cWin r right

/-- What one run of `DrawNode` does, besides the commands it emits and the
final counter value: the counter value at each computation of the offset
(line 82, one per invocation on a non-null node, in call order), every value
the counter is set to (by `iDepth++` and `iDepth--`), and the deepest nesting
of invocations on non-null nodes. -/
structure DrawTrace where
  cmds : List Cmd
  iDepth : Int
  offsetDepths : List Int
  counterValues : List Int
  nesting : Nat

/-- Function `DrawNode` with its run recorded: the same computation as
`DrawNode` (see `DrawNodeTrace_eq`), returning a `DrawTrace`. -/
def DrawNodeTrace (cWin : CWindow) : stNode_t → CfPoint → Int → DrawTrace
  | .null, _, iDepth => ⟨[], iDepth, [], [], 0⟩
  | .node _ l r, pPos, iDepth0 =>
    let iAdd := iAddDist iDepth0
    let iDepth1 := iDepth0 + 1
    let pLeft : CfPoint := ⟨pPos.x + (-iAdd), pPos.y + iHeight⟩
    let pRight : CfPoint := ⟨pPos.x + iAdd, pPos.y + iHeight⟩
    let lineL := if l.nonNull then [Cmd.DrawLine pPos pLeft] else []
    let lineR := if r.nonNull then [Cmd.DrawLine pPos pRight] else []
    let recL := if iDepth1 < iMaxDepth then DrawNodeTrace cWin l pLeft iDepth1
      else ⟨[], iDepth1, [], [], 0⟩
    let recR := if recL.iDepth < iMaxDepth then DrawNodeTrace cWin r pRight recL.iDepth
      else ⟨[], recL.iDepth, [], [], 0⟩
    let circL := if l.nonNull then [Cmd.DrawCircle pLeft iRadius] else []
    let circR := if r.nonNull then [Cmd.DrawCircle pRight iRadius] else []
    ⟨lineL ++ lineR ++ recL.cmds ++ recR.cmds ++ circL ++ circR
        ++ PrintText cWin l pLeft ++ PrintText cWin r pRight,
      recR.iDepth - 1,
      iDepth0 :: (recL.offsetDepths ++ recR.offsetDepths),
      iDepth1 :: (recL.counterValues ++ recR.counterValues ++ [recR.iDepth - 1]),
      1 + max recL.nesting recR.nesting⟩

/-! ## Basic facts about the embedding -/

theorem mainTree_eq : mainTree = some sampleTree := by decide

theorem DrawNode_snd (cWin : CWindow) (t : stNode_t) :
    ∀ (pPos : CfPoint) (s : Int), (DrawNode cWin t pPos s).2 = s := by
  induction t with
  | null => intro pPos s; rfl
  | node v l r ihl ihr =>
    intro pPos s
    simp only [DrawNode]
    split_ifs <;> simp_all

theorem DrawNode_node_fst (cWin : CWindow) (v : Int) (l r : stNode_t) (pPos : CfPoint)
    (s : Int) :
    (DrawNode cWin (.node v l r) pPos s).1 =
      (if l.nonNull then [Cmd.DrawLine pPos (childAnchor pPos s .L)] else [])
      ++ (if r.nonNull then [Cmd.DrawLine pPos (childAnchor pPos s .R)] else [])
      ++ (if s + 1 < iMaxDepth then (DrawNode cWin l (childAnchor pPos s .L) (s + 1)).1 else [])
      ++ (if s + 1 < iMaxDepth then (DrawNode cWin r (childAnchor pPos s .R) (s + 1)).1 else [])
      ++ (if l.nonNull then [Cmd.DrawCircle (childAnchor pPos s .L) iRadius] else [])
      ++ (if r.nonNull then [Cmd.DrawCircle (childAnchor pPos s .R) iRadius] else [])
      ++ PrintText cWin l (childAnchor pPos s .L)
      ++ PrintText cWin r (childAnchor pPos s .R) := by
  simp only [DrawNode, childAnchor]
  by_cases h : s + 1 < iMaxDepth
  · simp [h, DrawNode_snd]
  · simp [h]

theorem DrawTree_fst (cWin : CWindow) (d : Int) (t : stNode_t) (s : Int) :
    (DrawTree cWin d t s).1 =
      (DrawNode cWin t (rootAnchor cWin) s).1
        ++ [Cmd.DrawCircle (rootAnchor cWin) iRadius] ++ PrintText cWin t (rootAnchor cWin) := rfl

theorem DrawTree_snd (cWin : CWindow) (d : Int) (t : stNode_t) (s : Int) :
    (DrawTree cWin d t s).2 = s := by
  simp [DrawTree, DrawNode_snd]

/-! ## Paths and anchors -/

theorem subtree_null (p : List Dir) : subtree .null p = .null := by
  cases p <;> rfl

theorem childPaths_zero (t : stNode_t) : childPaths t 0 = [] := by
  cases t <;> rfl

theorem mem_childPaths (t : stNode_t) :
    ∀ (k : Nat) (p : List Dir),
      p ∈ childPaths t k ↔ p ≠ [] ∧ p.length ≤ k ∧ (subtree t p).nonNull = true := by
  induction t with
  | null => intro k p; simp [childPaths, subtree_null, stNode_t.nonNull]
  | node v l r ihl ihr =>
    intro k p
    cases k with
    | zero =>
      cases p <;> simp [childPaths]
    | succ k =>
      cases p with
      | nil => simp [childPaths]
      | cons d ds =>
        cases d
        · cases ds with
          | nil => cases l <;> simp [childPaths, subtree, stNode_t.nonNull]
          | cons e es =>
            have := ihl k (e :: es)
            cases l <;> simp_all [childPaths, subtree, stNode_t.nonNull]
        · cases ds with
          | nil => cases r <;> simp [childPaths, subtree, stNode_t.nonNull]
          | cons e es =>
            have := ihr k (e :: es)
            cases r <;> simp_all [childPaths, subtree, stNode_t.nonNull]

theorem mem_nodePaths (t : stNode_t) (k : Nat) (p : List Dir) :
    p ∈ nodePaths t k ↔ p.length ≤ k ∧ (subtree t p).nonNull = true := by
  unfold nodePaths
  cases p with
  | nil => cases t <;> simp [subtree, stNode_t.nonNull, mem_childPaths]
  | cons d ds =>
    cases t with
    | null => simp [stNode_t.nonNull, subtree]
    | node v l r => simp [stNode_t.nonNull, mem_childPaths]

theorem span_facts (s : Int) (h0 : 0 ≤ s) (h3 : s ≤ 3) :
    iAddDist s = span (s + 1) + 20 ∧ 0 ≤ span (s + 1) ∧ span s = iAddDist s + span (s + 1) := by
  interval_cases s <;> decide

theorem anchorAt_y (p : List Dir) :
    ∀ (pPos : CfPoint) (s : Int), (anchorAt pPos s p).y = pPos.y + iHeight * p.length := by
  induction p with
  | nil => intro pPos s; simp [anchorAt]
  | cons d ds ih =>
    intro pPos s
    rw [anchorAt, ih]
    cases d <;> simp [childAnchor] <;> ring

theorem anchorAt_x_range (p : List Dir) :
    ∀ (pPos : CfPoint) (s : Int), 0 ≤ s → s + p.length ≤ iMaxDepth →
      pPos.x - span s ≤ (anchorAt pPos s p).x ∧ (anchorAt pPos s p).x ≤ pPos.x + span s := by
  induction p with
  | nil =>
    intro pPos s h0 h4
    have : 0 ≤ span s := by
      simp only [iMaxDepth, List.length_nil, Nat.cast_zero, add_zero] at h4
      interval_cases s <;> decide
    simp only [anchorAt]; omega
  | cons d ds ih =>
    intro pPos s h0 h4
    simp only [iMaxDepth, List.length_cons, Nat.cast_add, Nat.cast_one] at h4
    have hf := span_facts s h0 (by omega)
    have := ih (childAnchor pPos s d) (s + 1) (by omega) (by simp only [iMaxDepth]; omega)
    rw [anchorAt]
    cases d <;> simp only [childAnchor] at this ⊢ <;> omega

theorem anchorAt_inj (p : List Dir) :
    ∀ (q : List Dir) (pPos : CfPoint) (s : Int), 0 ≤ s → s + q.length ≤ iMaxDepth →
      anchorAt pPos s p = anchorAt pPos s q → p = q := by
  induction p with
  | nil =>
    intro q pPos s _ _ h
    have hy := congrArg CPoint.y h
    rw [anchorAt_y, anchorAt_y] at hy
    simp only [iHeight, List.length_nil] at hy
    have : q.length = 0 := by omega
    exact (List.length_eq_zero.mp this).symm
  | cons d ds ih =>
    intro q pPos s h0 h4 h
    cases q with
    | nil =>
      have hy := congrArg CPoint.y h
      rw [anchorAt_y, anchorAt_y] at hy
      simp only [iHeight, List.length_nil, List.length_cons] at hy
      omega
    | cons e es =>
      simp only [iMaxDepth, List.length_cons, Nat.cast_add, Nat.cast_one] at h4
      have hlen : ds.length = es.length := by
        have hy := congrArg CPoint.y h
        rw [anchorAt_y, anchorAt_y] at hy
        simp only [iHeight, List.length_cons] at hy
        omega
      have hf := span_facts s h0 (by omega)
      rw [anchorAt, anchorAt] at h
      have hx := congrArg CPoint.x h
      have r1 := anchorAt_x_range ds (childAnchor pPos s d) (s + 1) (by omega)
        (by simp only [iMaxDepth]; omega)
      have r2 := anchorAt_x_range es (childAnchor pPos s e) (s + 1) (by omega)
        (by simp only [iMaxDepth]; omega)
      cases d <;> cases e
      · rw [ih es _ (s + 1) (by omega) (by simp only [iMaxDepth]; omega) h]
      · simp only [childAnchor] at r1 r2 hx; omega
      · simp only [childAnchor] at r1 r2 hx; omega
      · rw [ih es _ (s + 1) (by omega) (by simp only [iMaxDepth]; omega) h]

/-! ## Circles and labels emitted by `DrawNode` -/

theorem perm_rearrange {α : Type} [DecidableEq α] (A B C D : List α) :
    (A ++ B ++ C ++ D).Perm ((C ++ A) ++ (D ++ B)) := by
  rw [List.perm_iff_count]
  intro a
  simp only [List.count_append]
  omega

theorem circleCentres_append (a b : List Cmd) :
    circleCentres (a ++ b) = circleCentres a ++ circleCentres b := by
  induction a with
  | nil => rfl
  | cons c cs ih => cases c <;> simp [circleCentres, ih]

theorem circleCentres_PrintText (cWin : CWindow) (t : stNode_t) (p : CfPoint) :
    circleCentres (PrintText cWin t p) = [] := by
  cases t <;> rfl

theorem circleCentres_ite (c : Bool) (a : CfPoint) (r : Int) :
    circleCentres (if c then [Cmd.DrawCircle a r] else []) = if c then [a] else [] := by
  cases c <;> rfl

theorem circleCentres_ite_line (c : Bool) (a b : CfPoint) :
    circleCentres (if c then [Cmd.DrawLine a b] else []) = [] := by
  cases c <;> rfl

theorem mem_circleCentres (c : CfPoint) (l : List Cmd) :
    c ∈ circleCentres l ↔ ∃ r, Cmd.DrawCircle c r ∈ l := by
  induction l with
  | nil => simp [circleCentres]
  | cons a as ih =>
    cases a <;> simp [circleCentres, ih]
    rename_i c1 r1
    constructor
    · rintro (h | ⟨r, h⟩)
      · exact ⟨r1, Or.inl ⟨h, rfl⟩⟩
      · exact ⟨r, Or.inr h⟩
    · rintro ⟨r, h | h⟩
      · exact Or.inl h.1
      · exact Or.inr ⟨r, h⟩

theorem PrintText_eq (cWin : CWindow) (t : stNode_t) (p : CfPoint) :
    PrintText cWin t p =
      if t.nonNull then [Cmd.Write (labelAt cWin p t.value).1 (labelAt cWin p t.value).2]
      else [] := by
  cases t <;> rfl

theorem circle_radius_DrawNode (cWin : CWindow) (t : stNode_t) :
    ∀ (pPos : CfPoint) (s : Int) (c : CfPoint) (r : Int),
      Cmd.DrawCircle c r ∈ (DrawNode cWin t pPos s).1 → r = iRadius := by
  induction t with
  | null => intro pPos s c r h; simp [DrawNode] at h
  | node v l r ihl ihr =>
    intro pPos s c r0 h
    rw [DrawNode_node_fst] at h
    simp only [List.mem_append, PrintText_eq] at h
    rcases h with (((((((h | h) | h) | h) | h) | h) | h) | h)
    · split_ifs at h <;> simp at h
    · split_ifs at h <;> simp at h
    · split_ifs at h
      · exact ihl _ _ _ _ h
      · simp at h
    · split_ifs at h
      · exact ihr _ _ _ _ h
      · simp at h
    · split_ifs at h <;> simp at h
      exact h.2
    · split_ifs at h <;> simp at h
      exact h.2
    · split_ifs at h <;> simp at h
    · split_ifs at h <;> simp at h

theorem circles_DrawNode (cWin : CWindow) (t : stNode_t) :
    ∀ (k : Nat) (s : Int) (pPos : CfPoint), s + k = iMaxDepth → 1 ≤ k →
      (circleCentres (DrawNode cWin t pPos s).1).Perm
        ((childPaths t k).map (anchorAt pPos s)) := by
  induction t with
  | null => intro k s pPos _ _; simp [DrawNode, circleCentres, childPaths]
  | node v l r ihl ihr =>
    intro k s pPos hs hk
    obtain ⟨k, rfl⟩ : ∃ j, k = j + 1 := ⟨k - 1, by omega⟩
    rw [DrawNode_node_fst]
    simp only [circleCentres_append, circleCentres_PrintText, circleCentres_ite,
      circleCentres_ite_line, List.append_nil, List.nil_append, childPaths, List.map_append,
      List.map_map]
    have hL : ((if l.nonNull then [] :: childPaths l k else []).map
        (anchorAt pPos s ∘ fun p => Dir.L :: p)) =
        (if l.nonNull then [childAnchor pPos s .L] else [])
          ++ (childPaths l k).map (anchorAt (childAnchor pPos s .L) (s + 1)) := by
      cases l <;> simp [stNode_t.nonNull, childPaths, anchorAt, Function.comp_def]
    have hR : ((if r.nonNull then [] :: childPaths r k else []).map
        (anchorAt pPos s ∘ fun p => Dir.R :: p)) =
        (if r.nonNull then [childAnchor pPos s .R] else [])
          ++ (childPaths r k).map (anchorAt (childAnchor pPos s .R) (s + 1)) := by
      cases r <;> simp [stNode_t.nonNull, childPaths, anchorAt, Function.comp_def]
    rw [hL, hR]
    refine (perm_rearrange _ _ _ _).trans ?_
    refine List.Perm.append (List.Perm.append_left _ ?_) (List.Perm.append_left _ ?_)
    · by_cases h : s + 1 < iMaxDepth
      · rw [if_pos h]
        exact ihl k (s + 1) _ (by push_cast at hs; omega) (by simp only [iMaxDepth] at *; omega)
      · have hk0 : k = 0 := by simp only [iMaxDepth] at *; omega
        subst hk0
        simp [h, childPaths_zero, circleCentres]
    · by_cases h : s + 1 < iMaxDepth
      · rw [if_pos h]
        exact ihr k (s + 1) _ (by push_cast at hs; omega) (by simp only [iMaxDepth] at *; omega)
      · have hk0 : k = 0 := by simp only [iMaxDepth] at *; omega
        subst hk0
        simp [h, childPaths_zero, circleCentres]

theorem circles_DrawTree (cWin : CWindow) (d : Int) (t : stNode_t) (ht : t.nonNull = true) :
    (circleCentres (DrawTree cWin d t 0).1).Perm
      ((nodePaths t 4).map (anchorAt (rootAnchor cWin) 0)) := by
  rw [DrawTree_fst]
  simp only [circleCentres_append, circleCentres_PrintText, List.append_nil, nodePaths, ht,
    if_true, List.map_cons, anchorAt, circleCentres]
  refine List.perm_append_singleton _ _ |>.trans ?_
  exact List.Perm.cons _ (circles_DrawNode cWin t 4 0 _ (by decide) (by decide))

theorem labels_append (a b : List Cmd) : labels (a ++ b) = labels a ++ labels b := by
  induction a with
  | nil => rfl
  | cons c cs ih => cases c <;> simp [labels, ih]

theorem labels_PrintText (cWin : CWindow) (t : stNode_t) (p : CfPoint) :
    labels (PrintText cWin t p) = if t.nonNull then [labelAt cWin p t.value] else [] := by
  cases t <;> rfl

theorem labels_ite_circle (c : Bool) (a : CfPoint) (r : Int) :
    labels (if c then [Cmd.DrawCircle a r] else []) = [] := by
  cases c <;> rfl

theorem labels_ite_line (c : Bool) (a b : CfPoint) :
    labels (if c then [Cmd.DrawLine a b] else []) = [] := by
  cases c <;> rfl

theorem labels_DrawNode (cWin : CWindow) (t : stNode_t) :
    ∀ (k : Nat) (s : Int) (pPos : CfPoint), s + k = iMaxDepth → 1 ≤ k →
      (labels (DrawNode cWin t pPos s).1).Perm
        ((childPaths t k).map (fun p => labelAt cWin (anchorAt pPos s p) (subtree t p).value)) := by
  induction t with
  | null => intro k s pPos _ _; simp [DrawNode, labels, childPaths]
  | node v l r ihl ihr =>
    intro k s pPos hs hk
    obtain ⟨k, rfl⟩ : ∃ j, k = j + 1 := ⟨k - 1, by omega⟩
    rw [DrawNode_node_fst]
    simp only [labels_append, labels_PrintText, labels_ite_circle,
      labels_ite_line, List.append_nil, List.nil_append, childPaths, List.map_append,
      List.map_map]
    have hL : ((if l.nonNull then [] :: childPaths l k else []).map
        ((fun p => labelAt cWin (anchorAt pPos s p) (subtree (.node v l r) p).value)
          ∘ fun p => Dir.L :: p)) =
        (if l.nonNull then [labelAt cWin (childAnchor pPos s .L) l.value] else [])
          ++ (childPaths l k).map
            (fun p => labelAt cWin (anchorAt (childAnchor pPos s .L) (s + 1) p)
              (subtree l p).value) := by
      cases l <;> simp [stNode_t.nonNull, childPaths, anchorAt, subtree, Function.comp_def]
    have hR : ((if r.nonNull then [] :: childPaths r k else []).map
        ((fun p => labelAt cWin (anchorAt pPos s p) (subtree (.node v l r) p).value)
          ∘ fun p => Dir.R :: p)) =
        (if r.nonNull then [labelAt cWin (childAnchor pPos s .R) r.value] else [])
          ++ (childPaths r k).map
            (fun p => labelAt cWin (anchorAt (childAnchor pPos s .R) (s + 1) p)
              (subtree r p).value) := by
      cases r <;> simp [stNode_t.nonNull, childPaths, anchorAt, subtree, Function.comp_def]
    rw [hL, hR]
    refine (perm_rearrange _ _ _ _).trans ?_
    refine List.Perm.append (List.Perm.append_left _ ?_) (List.Perm.append_left _ ?_)
    · by_cases h : s + 1 < iMaxDepth
      · rw [if_pos h]
        exact ihl k (s + 1) _ (by push_cast at hs; omega) (by simp only [iMaxDepth] at *; omega)
      · have hk0 : k = 0 := by simp only [iMaxDepth] at *; omega
        subst hk0
        simp [h, childPaths_zero, labels]
    · by_cases h : s + 1 < iMaxDepth
      · rw [if_pos h]
        exact ihr k (s + 1) _ (by push_cast at hs; omega) (by simp only [iMaxDepth] at *; omega)
      · have hk0 : k = 0 := by simp only [iMaxDepth] at *; omega
        subst hk0
        simp [h, childPaths_zero, labels]

theorem labels_DrawTree (cWin : CWindow) (d : Int) (t : stNode_t) (ht : t.nonNull = true) :
    (labels (DrawTree cWin d t 0).1).Perm
      ((nodePaths t 4).map
        (fun p => labelAt cWin (anchorAt (rootAnchor cWin) 0 p) (subtree t p).value)) := by
  rw [DrawTree_fst]
  simp only [labels_append, labels_PrintText, nodePaths, ht, if_true, List.map_cons, anchorAt,
    labels, List.append_nil, subtree]
  refine List.perm_append_singleton _ _ |>.trans ?_
  exact List.Perm.cons _ (labels_DrawNode cWin t 4 0 _ (by decide) (by decide))

/-! ## The depth cutoff -/

theorem nonNull_truncate (k : Nat) (t : stNode_t) : (truncate k t).nonNull = t.nonNull := by
  cases t <;> cases k <;> rfl

theorem PrintText_truncate (cWin : CWindow) (k : Nat) (t : stNode_t) (p : CfPoint) :
    PrintText cWin (truncate k t) p = PrintText cWin t p := by
  cases t <;> cases k <;> rfl

theorem DrawNode_truncate (cWin : CWindow) (t : stNode_t) :
    ∀ (k : Nat) (s : Int) (pPos : CfPoint), s + k = iMaxDepth → 1 ≤ k →
      (DrawNode cWin (truncate k t) pPos s).1 = (DrawNode cWin t pPos s).1 := by
  induction t with
  | null => intro k s pPos _ _; cases k <;> rfl
  | node v l r ihl ihr =>
    intro k s pPos hs hk
    obtain ⟨k, rfl⟩ : ∃ j, k = j + 1 := ⟨k - 1, by omega⟩
    simp only [truncate]
    rw [DrawNode_node_fst, DrawNode_node_fst]
    simp only [nonNull_truncate, PrintText_truncate]
    by_cases h : s + 1 < iMaxDepth
    · have hk1 : 1 ≤ k := by simp only [iMaxDepth] at *; omega
      have hs1 : s + 1 + (k : Int) = iMaxDepth := by push_cast at hs; omega
      simp only [if_pos h, ihl k (s + 1) _ hs1 hk1, ihr k (s + 1) _ hs1 hk1]
    · simp only [if_neg h]

theorem line_mem_DrawNode (cWin : CWindow) (q : List Dir) :
    ∀ (t : stNode_t) (pPos : CfPoint) (s : Int) (dir : Dir),
      s + q.length + 1 ≤ iMaxDepth → (subtree t (q ++ [dir])).nonNull = true →
      Cmd.DrawLine (anchorAt pPos s q) (anchorAt pPos s (q ++ [dir]))
        ∈ (DrawNode cWin t pPos s).1 := by
  induction q with
  | nil =>
    intro t pPos s dir _ hn
    cases t with
    | null => simp [subtree, stNode_t.nonNull] at hn
    | node v l r =>
      rw [DrawNode_node_fst]
      cases dir <;> simp only [List.nil_append, subtree] at hn <;> simp [hn, anchorAt]
  | cons e es ih =>
    intro t pPos s dir hs hn
    cases t with
    | null => simp [subtree, stNode_t.nonNull] at hn
    | node v l r =>
      have h : s + 1 < iMaxDepth := by
        simp only [List.length_cons, Nat.cast_add, Nat.cast_one] at hs; omega
      have hs1 : s + 1 + (es.length : Int) + 1 ≤ iMaxDepth := by
        simp only [List.length_cons, Nat.cast_add, Nat.cast_one] at hs; omega
      rw [DrawNode_node_fst]
      cases e
      · have := ih l (childAnchor pPos s .L) (s + 1) dir hs1 (by simpa [subtree] using hn)
        simp only [if_pos h, List.cons_append, anchorAt, List.mem_append]
        tauto
      · have := ih r (childAnchor pPos s .R) (s + 1) dir hs1 (by simpa [subtree] using hn)
        simp only [if_pos h, List.cons_append, anchorAt, List.mem_append]
        tauto

/-! ## Order of emission around a marker -/

theorem mem_ite_singleton (c : Cmd) (b : Bool) (x : Cmd) :
    c ∈ (if b = true then [x] else []) ↔ (b = true ∧ c = x) := by
  cases b <;> simp

theorem mem_ite_list (c : Cmd) (P : Prop) [Decidable P] (xs : List Cmd) :
    c ∈ (if P then xs else []) ↔ (P ∧ c ∈ xs) := by
  by_cases h : P <;> simp [h]

theorem not_line_mem_PrintText (cWin : CWindow) (t : stNode_t) (p a b : CfPoint) :
    Cmd.DrawLine a b ∉ PrintText cWin t p := by
  cases t <;> simp [PrintText]

theorem not_circle_mem_PrintText (cWin : CWindow) (t : stNode_t) (p a : CfPoint) (r : Int) :
    Cmd.DrawCircle a r ∉ PrintText cWin t p := by
  cases t <;> simp [PrintText]

theorem mem_DrawNode_node (cWin : CWindow) (v : Int) (l r : stNode_t) (pPos : CfPoint)
    (s : Int) (c : Cmd) :
    c ∈ (DrawNode cWin (.node v l r) pPos s).1 ↔
      (l.nonNull = true ∧ c = Cmd.DrawLine pPos (childAnchor pPos s .L))
      ∨ (r.nonNull = true ∧ c = Cmd.DrawLine pPos (childAnchor pPos s .R))
      ∨ (s + 1 < iMaxDepth ∧ c ∈ (DrawNode cWin l (childAnchor pPos s .L) (s + 1)).1)
      ∨ (s + 1 < iMaxDepth ∧ c ∈ (DrawNode cWin r (childAnchor pPos s .R) (s + 1)).1)
      ∨ (l.nonNull = true ∧ c = Cmd.DrawCircle (childAnchor pPos s .L) iRadius)
      ∨ (r.nonNull = true ∧ c = Cmd.DrawCircle (childAnchor pPos s .R) iRadius)
      ∨ c ∈ PrintText cWin l (childAnchor pPos s .L)
      ∨ c ∈ PrintText cWin r (childAnchor pPos s .R) := by
  rw [DrawNode_node_fst]
  simp only [List.mem_append]
  have e1 : ∀ (b : Bool) (x : Cmd), c ∈ (if b = true then [x] else []) ↔ (b = true ∧ c = x) := by
    intro b x; cases b <;> simp
  have e2 : ∀ (P : Prop) [Decidable P] (xs : List Cmd),
      c ∈ (if P then xs else []) ↔ (P ∧ c ∈ xs) := by
    intro P _ xs; by_cases h : P <;> simp [h]
  rw [e1, e1, e1, e1, e2, e2]
  tauto

theorem span_nonneg (s : Int) (h0 : 0 ≤ s) (h4 : s ≤ 4) : 0 ≤ span s := by
  interval_cases s <;> decide

theorem line_range_DrawNode (cWin : CWindow) (t : stNode_t) :
    ∀ (pPos : CfPoint) (s : Int) (a b : CfPoint), 0 ≤ s → s + 1 ≤ iMaxDepth →
      Cmd.DrawLine a b ∈ (DrawNode cWin t pPos s).1 →
      (pPos.x - span s ≤ a.x ∧ a.x ≤ pPos.x + span s)
        ∧ (pPos.x - span s ≤ b.x ∧ b.x ≤ pPos.x + span s) := by
  induction t with
  | null => intro pPos s a b _ _ h; simp [DrawNode] at h
  | node v l r ihl ihr =>
    intro pPos s a b h0 h4 h
    simp only [iMaxDepth] at h4
    have hf := span_facts s h0 (by omega)
    rw [mem_DrawNode_node] at h
    rcases h with h | h | h | h | h | h | h | h
    · obtain ⟨_, h⟩ := h
      injection h with ha hb
      subst ha; subst hb
      simp only [childAnchor]; omega
    · obtain ⟨_, h⟩ := h
      injection h with ha hb
      subst ha; subst hb
      simp only [childAnchor]; omega
    · obtain ⟨hlt, h⟩ := h
      have := ihl _ (s + 1) a b (by omega) (by omega) h
      simp only [childAnchor] at this; omega
    · obtain ⟨hlt, h⟩ := h
      have := ihr _ (s + 1) a b (by omega) (by omega) h
      simp only [childAnchor] at this; omega
    · exact absurd h.2 (by simp)
    · exact absurd h.2 (by simp)
    · exact absurd h (not_line_mem_PrintText _ _ _ _ _)
    · exact absurd h (not_line_mem_PrintText _ _ _ _ _)

theorem circle_range_DrawNode (cWin : CWindow) (t : stNode_t) :
    ∀ (pPos : CfPoint) (s : Int) (c : CfPoint) (r0 : Int), 0 ≤ s → s + 1 ≤ iMaxDepth →
      Cmd.DrawCircle c r0 ∈ (DrawNode cWin t pPos s).1 →
      pPos.x - span s ≤ c.x ∧ c.x ≤ pPos.x + span s ∧ pPos.y + iHeight ≤ c.y := by
  induction t with
  | null => intro pPos s c r0 _ _ h; simp [DrawNode] at h
  | node v l r ihl ihr =>
    intro pPos s c r0 h0 h4 h
    simp only [iMaxDepth] at h4
    have hf := span_facts s h0 (by omega)
    rw [mem_DrawNode_node] at h
    rcases h with h | h | h | h | h | h | h | h
    · exact absurd h.2 (by simp)
    · exact absurd h.2 (by simp)
    · obtain ⟨hlt, h⟩ := h
      have := ihl _ (s + 1) c r0 (by omega) (by omega) h
      simp only [childAnchor, iHeight] at this ⊢; omega
    · obtain ⟨hlt, h⟩ := h
      have := ihr _ (s + 1) c r0 (by omega) (by omega) h
      simp only [childAnchor, iHeight] at this ⊢; omega
    · obtain ⟨_, h⟩ := h
      injection h with ha hb
      subst ha
      simp only [childAnchor]; omega
    · obtain ⟨_, h⟩ := h
      injection h with ha hb
      subst ha
      simp only [childAnchor]; omega
    · exact absurd h (not_circle_mem_PrintText _ _ _ _ _)
    · exact absurd h (not_circle_mem_PrintText _ _ _ _ _)

theorem childAnchor_L_ne_R (pPos : CfPoint) (s : Int) (h0 : 0 ≤ s) (h3 : s ≤ 3) :
    childAnchor pPos s .L ≠ childAnchor pPos s .R := by
  intro h
  have hx := congrArg CPoint.x h
  have hf := span_facts s h0 h3
  simp only [childAnchor] at hx
  omega

theorem markerSplit_child (cWin : CWindow) (v : Int) (l r : stNode_t) (pPos : CfPoint)
    (s : Int) (e : Dir) (h0 : 0 ≤ s) (h4 : s + 1 ≤ iMaxDepth)
    (hn : (subtree (.node v l r) [e]).nonNull = true) :
    ∃ pre post, MarkerSplit (DrawNode cWin (.node v l r) pPos s).1 (childAnchor pPos s e)
      (if s + 1 < iMaxDepth then
        (DrawNode cWin (subtree (.node v l r) [e]) (childAnchor pPos s e) (s + 1)).1 else [])
      (PrintText cWin (subtree (.node v l r) [e]) (childAnchor pPos s e)) pre post := by
  have h3 : s ≤ 3 := by simp only [iMaxDepth] at h4; omega
  have hne := childAnchor_L_ne_R pPos s h0 h3
  have hyL : (childAnchor pPos s .L).y = pPos.y + iHeight := rfl
  have hyR : (childAnchor pPos s .R).y = pPos.y + iHeight := rfl
  have hrec : ∀ (t : stNode_t) (A B : CfPoint) (r0 : Int), B.y = pPos.y + iHeight →
      A.y = pPos.y + iHeight →
      Cmd.DrawCircle A r0 ∉
        (if s + 1 < iMaxDepth then (DrawNode cWin t B (s + 1)).1 else []) := by
    intro t A B r0 hB hA hmem
    rw [mem_ite_list] at hmem
    obtain ⟨hlt, hmem⟩ := hmem
    have := circle_range_DrawNode cWin t B (s + 1) A r0 (by omega) (by omega) hmem
    simp only [iHeight] at *
    omega
  rw [DrawNode_node_fst]
  cases e
  · have hl : l.nonNull = true := by simpa [subtree] using hn
    simp only [subtree]
    refine ⟨(if l.nonNull then [Cmd.DrawLine pPos (childAnchor pPos s .L)] else [])
        ++ (if r.nonNull then [Cmd.DrawLine pPos (childAnchor pPos s .R)] else [])
        ++ (if s + 1 < iMaxDepth then
            (DrawNode cWin l (childAnchor pPos s .L) (s + 1)).1 else [])
        ++ (if s + 1 < iMaxDepth then
            (DrawNode cWin r (childAnchor pPos s .R) (s + 1)).1 else []),
      (if r.nonNull then [Cmd.DrawCircle (childAnchor pPos s .R) iRadius] else [])
        ++ PrintText cWin l (childAnchor pPos s .L)
        ++ PrintText cWin r (childAnchor pPos s .R), ?_, ?_, ?_, ?_, ?_, ?_⟩
    · simp [hl]
    · intro r0 hmem
      simp only [List.mem_append, mem_ite_singleton] at hmem
      rcases hmem with ((h | h) | h) | h
      · exact absurd h.2 (by simp)
      · exact absurd h.2 (by simp)
      · exact hrec _ _ _ _ hyL hyL h
      · exact hrec _ _ _ _ hyR hyL h
    · intro r0 hmem
      simp only [List.mem_append, mem_ite_singleton] at hmem
      rcases hmem with (h | h) | h
      · obtain ⟨_, h⟩ := h
        injection h with ha _
        exact hne ha
      · exact not_circle_mem_PrintText _ _ _ _ _ h
      · exact not_circle_mem_PrintText _ _ _ _ _ h
    · intro a b hmem
      simp only [List.mem_append, mem_ite_singleton] at hmem
      rcases hmem with (h | h) | h
      · exact absurd h.2 (by simp)
      · exact absurd h (not_line_mem_PrintText _ _ _ _ _)
      · exact absurd h (not_line_mem_PrintText _ _ _ _ _)
    · exact ⟨_, _, rfl⟩
    · intro c hc
      simp only [List.mem_append]
      exact Or.inl (Or.inr hc)
  · have hr : r.nonNull = true := by simpa [subtree] using hn
    simp only [subtree]
    refine ⟨(if l.nonNull then [Cmd.DrawLine pPos (childAnchor pPos s .L)] else [])
        ++ (if r.nonNull then [Cmd.DrawLine pPos (childAnchor pPos s .R)] else [])
        ++ (if s + 1 < iMaxDepth then
            (DrawNode cWin l (childAnchor pPos s .L) (s + 1)).1 else [])
        ++ (if s + 1 < iMaxDepth then
            (DrawNode cWin r (childAnchor pPos s .R) (s + 1)).1 else [])
        ++ (if l.nonNull then [Cmd.DrawCircle (childAnchor pPos s .L) iRadius] else []),
      PrintText cWin l (childAnchor pPos s .L)
        ++ PrintText cWin r (childAnchor pPos s .R), ?_, ?_, ?_, ?_, ?_, ?_⟩
    · simp [hr]
    · intro r0 hmem
      simp only [List.mem_append, mem_ite_singleton] at hmem
      rcases hmem with (((h | h) | h) | h) | h
      · exact absurd h.2 (by simp)
      · exact absurd h.2 (by simp)
      · exact hrec _ _ _ _ hyL hyR h
      · exact hrec _ _ _ _ hyR hyR h
      · obtain ⟨_, h⟩ := h
        injection h with ha _
        exact hne ha.symm
    · intro r0 hmem
      simp only [List.mem_append] at hmem
      rcases hmem with h | h
      · exact not_circle_mem_PrintText _ _ _ _ _ h
      · exact not_circle_mem_PrintText _ _ _ _ _ h
    · intro a b hmem
      simp only [List.mem_append] at hmem
      rcases hmem with h | h
      · exact absurd h (not_line_mem_PrintText _ _ _ _ _)
      · exact absurd h (not_line_mem_PrintText _ _ _ _ _)
    · exact ⟨(if l.nonNull then [Cmd.DrawLine pPos (childAnchor pPos s .L)] else [])
          ++ (if r.nonNull then [Cmd.DrawLine pPos (childAnchor pPos s .R)] else [])
          ++ (if s + 1 < iMaxDepth then
              (DrawNode cWin l (childAnchor pPos s .L) (s + 1)).1 else []),
        (if l.nonNull then [Cmd.DrawCircle (childAnchor pPos s .L) iRadius] else []),
        by simp only [List.append_assoc]⟩
    · intro c hc
      simp only [List.mem_append]
      exact Or.inr hc


theorem markerSplit_lift (cWin : CWindow) (v : Int) (l r : stNode_t) (pPos : CfPoint)
    (s : Int) (e : Dir) (A : CfPoint) (sub lbl : List Cmd) (h0 : 0 ≤ s)
    (h4 : s + 2 ≤ iMaxDepth) (hy : pPos.y + iHeight + iHeight ≤ A.y)
    (hx : (childAnchor pPos s e).x - span (s + 1) ≤ A.x
      ∧ A.x ≤ (childAnchor pPos s e).x + span (s + 1))
    (hsplit : ∃ pre post, MarkerSplit
      (DrawNode cWin (subtree (.node v l r) [e]) (childAnchor pPos s e) (s + 1)).1
      A sub lbl pre post) :
    ∃ pre post, MarkerSplit (DrawNode cWin (.node v l r) pPos s).1 A sub lbl pre post := by
  simp only [iMaxDepth] at h4
  have hlt : s + 1 < iMaxDepth := by simp only [iMaxDepth]; omega
  have hf := span_facts s h0 (by omega)
  obtain ⟨pre1, post1, heq, hpre, hpost, hline, ⟨u, w, huw⟩, hlbl⟩ := hsplit
  have hcircL : ∀ r0, Cmd.DrawCircle A r0 ∉
      (if l.nonNull then [Cmd.DrawCircle (childAnchor pPos s .L) iRadius] else []) := by
    intro r0 hmem
    rw [mem_ite_singleton] at hmem
    obtain ⟨_, h⟩ := hmem
    injection h with ha _
    have := congrArg CPoint.y ha
    simp only [childAnchor, iHeight] at this hy
    omega
  have hcircR : ∀ r0, Cmd.DrawCircle A r0 ∉
      (if r.nonNull then [Cmd.DrawCircle (childAnchor pPos s .R) iRadius] else []) := by
    intro r0 hmem
    rw [mem_ite_singleton] at hmem
    obtain ⟨_, h⟩ := hmem
    injection h with ha _
    have := congrArg CPoint.y ha
    simp only [childAnchor, iHeight] at this hy
    omega
  rw [DrawNode_node_fst, if_pos hlt, if_pos hlt]
  cases e
  · simp only [subtree] at heq
    simp only [childAnchor] at hx
    refine ⟨(if l.nonNull then [Cmd.DrawLine pPos (childAnchor pPos s .L)] else [])
        ++ (if r.nonNull then [Cmd.DrawLine pPos (childAnchor pPos s .R)] else [])
        ++ pre1,
      post1 ++ (DrawNode cWin r (childAnchor pPos s .R) (s + 1)).1
        ++ (if l.nonNull then [Cmd.DrawCircle (childAnchor pPos s .L) iRadius] else [])
        ++ (if r.nonNull then [Cmd.DrawCircle (childAnchor pPos s .R) iRadius] else [])
        ++ PrintText cWin l (childAnchor pPos s .L)
        ++ PrintText cWin r (childAnchor pPos s .R), ?_, ?_, ?_, ?_, ?_, ?_⟩
    · rw [heq]; simp only [List.append_assoc, List.cons_append]
    · intro r0 hmem
      simp only [List.mem_append, mem_ite_singleton] at hmem
      rcases hmem with (h | h) | h
      · exact absurd h.2 (by simp)
      · exact absurd h.2 (by simp)
      · exact hpre r0 h
    · intro r0 hmem
      simp only [List.mem_append] at hmem
      rcases hmem with ((((h | h) | h) | h) | h) | h
      · exact hpost r0 h
      · have := circle_range_DrawNode cWin r _ (s + 1) A r0 (by omega)
          (by simp only [iMaxDepth]; omega) h
        simp only [childAnchor] at this
        omega
      · exact hcircL r0 h
      · exact hcircR r0 h
      · exact not_circle_mem_PrintText _ _ _ _ _ h
      · exact not_circle_mem_PrintText _ _ _ _ _ h
    · intro a b hmem
      simp only [List.mem_append, mem_ite_singleton] at hmem
      rcases hmem with ((((h | h) | h) | h) | h) | h
      · exact hline a b h
      · have := line_range_DrawNode cWin r _ (s + 1) a b (by omega)
          (by simp only [iMaxDepth]; omega) h
        simp only [childAnchor] at this
        simp only [iDist]
        omega
      · exact absurd h.2 (by simp)
      · exact absurd h.2 (by simp)
      · exact absurd h (not_line_mem_PrintText _ _ _ _ _)
      · exact absurd h (not_line_mem_PrintText _ _ _ _ _)
    · exact ⟨(if l.nonNull then [Cmd.DrawLine pPos (childAnchor pPos s .L)] else [])
          ++ (if r.nonNull then [Cmd.DrawLine pPos (childAnchor pPos s .R)] else []) ++ u, w,
        by rw [← huw]; simp only [List.append_assoc]⟩
    · intro c hc
      simp only [List.mem_append]
      exact Or.inl (Or.inl (Or.inl (Or.inl (Or.inl (hlbl hc)))))
  · simp only [subtree] at heq
    simp only [childAnchor] at hx
    refine ⟨(if l.nonNull then [Cmd.DrawLine pPos (childAnchor pPos s .L)] else [])
        ++ (if r.nonNull then [Cmd.DrawLine pPos (childAnchor pPos s .R)] else [])
        ++ (DrawNode cWin l (childAnchor pPos s .L) (s + 1)).1
        ++ pre1,
      post1
        ++ (if l.nonNull then [Cmd.DrawCircle (childAnchor pPos s .L) iRadius] else [])
        ++ (if r.nonNull then [Cmd.DrawCircle (childAnchor pPos s .R) iRadius] else [])
        ++ PrintText cWin l (childAnchor pPos s .L)
        ++ PrintText cWin r (childAnchor pPos s .R), ?_, ?_, ?_, ?_, ?_, ?_⟩
    · rw [heq]; simp only [List.append_assoc, List.cons_append]
    · intro r0 hmem
      simp only [List.mem_append, mem_ite_singleton] at hmem
      rcases hmem with ((h | h) | h) | h
      · exact absurd h.2 (by simp)
      · exact absurd h.2 (by simp)
      · have := circle_range_DrawNode cWin l _ (s + 1) A r0 (by omega)
          (by simp only [iMaxDepth]; omega) h
        simp only [childAnchor] at this
        omega
      · exact hpre r0 h
    · intro r0 hmem
      simp only [List.mem_append] at hmem
      rcases hmem with (((h | h) | h) | h) | h
      · exact hpost r0 h
      · exact hcircL r0 h
      · exact hcircR r0 h
      · exact not_circle_mem_PrintText _ _ _ _ _ h
      · exact not_circle_mem_PrintText _ _ _ _ _ h
    · intro a b hmem
      simp only [List.mem_append, mem_ite_singleton] at hmem
      rcases hmem with (((h | h) | h) | h) | h
      · exact hline a b h
      · exact absurd h.2 (by simp)
      · exact absurd h.2 (by simp)
      · exact absurd h (not_line_mem_PrintText _ _ _ _ _)
      · exact absurd h (not_line_mem_PrintText _ _ _ _ _)
    · exact ⟨(if l.nonNull then [Cmd.DrawLine pPos (childAnchor pPos s .L)] else [])
          ++ (if r.nonNull then [Cmd.DrawLine pPos (childAnchor pPos s .R)] else [])
          ++ (DrawNode cWin l (childAnchor pPos s .L) (s + 1)).1 ++ u, w,
        by rw [← huw]; simp only [List.append_assoc]⟩
    · intro c hc
      simp only [List.mem_append]
      exact Or.inl (Or.inl (Or.inl (Or.inl (hlbl hc))))

theorem markerSplit_DrawNode (cWin : CWindow) (es : List Dir) :
    ∀ (e : Dir) (t : stNode_t) (pPos : CfPoint) (s : Int), 0 ≤ s →
      s + (es.length + 1 : Nat) ≤ iMaxDepth → (subtree t (e :: es)).nonNull = true →
      ∃ pre post, MarkerSplit (DrawNode cWin t pPos s).1 (anchorAt pPos s (e :: es))
        (if s + (es.length + 1 : Nat) < iMaxDepth then
          (DrawNode cWin (subtree t (e :: es)) (anchorAt pPos s (e :: es))
            (s + (es.length + 1 : Nat))).1 else [])
        (PrintText cWin (subtree t (e :: es)) (anchorAt pPos s (e :: es))) pre post := by
  induction es with
  | nil =>
    intro e t pPos s h0 h4 hn
    cases t with
    | null => simp [subtree, stNode_t.nonNull] at hn
    | node v l r =>
      have := markerSplit_child cWin v l r pPos s e h0
        (by simpa using h4) hn
      simpa [anchorAt] using this
  | cons e1 es1 ih =>
    intro e t pPos s h0 h4 hn
    cases t with
    | null => simp [subtree, stNode_t.nonNull] at hn
    | node v l r =>
      simp only [List.length_cons, Nat.cast_add, Nat.cast_one, iMaxDepth] at h4
      have hsub : subtree (.node v l r) (e :: e1 :: es1)
          = subtree (subtree (.node v l r) [e]) (e1 :: es1) := by
        cases e <;> simp only [subtree]
      have hcast : s + ((e1 :: es1).length + 1 : Nat) = s + 1 + (es1.length + 1 : Nat) := by
        simp only [List.length_cons, Nat.cast_add, Nat.cast_one]; ring
      have ih1 := ih e1 (subtree (.node v l r) [e]) (childAnchor pPos s e) (s + 1) (by omega)
        (by simp only [iMaxDepth, Nat.cast_add, Nat.cast_one]; omega) (by rw [← hsub]; exact hn)
      rw [hsub, hcast]
      have hanchor : anchorAt pPos s (e :: e1 :: es1)
          = anchorAt (childAnchor pPos s e) (s + 1) (e1 :: es1) := rfl
      rw [hanchor]
      refine markerSplit_lift cWin v l r pPos s e _ _ _ h0 (by simp only [iMaxDepth]; omega)
        ?_ ?_ ih1
      · rw [anchorAt_y]
        have : (childAnchor pPos s e).y = pPos.y + iHeight := by cases e <;> rfl
        rw [this]
        simp only [iHeight, List.length_cons, Nat.cast_add, Nat.cast_one]
        omega
      · exact anchorAt_x_range (e1 :: es1) (childAnchor pPos s e) (s + 1) (by omega)
          (by simp only [iMaxDepth, List.length_cons, Nat.cast_add, Nat.cast_one]; omega)


theorem markerSplit_DrawTree (cWin : CWindow) (d : Int) (t : stNode_t) (p : List Dir)
    (hp : p.length ≤ 4) (hn : (subtree t p).nonNull = true) :
    ∃ pre post, MarkerSplit (DrawTree cWin d t 0).1 (anchorAt (rootAnchor cWin) 0 p)
      (if (p.length : Int) < iMaxDepth then
        (DrawNode cWin (subtree t p) (anchorAt (rootAnchor cWin) 0 p) p.length).1 else [])
      (PrintText cWin (subtree t p) (anchorAt (rootAnchor cWin) 0 p)) pre post := by
  rw [DrawTree_fst]
  cases p with
  | nil =>
    refine ⟨(DrawNode cWin t (rootAnchor cWin) 0).1, PrintText cWin t (rootAnchor cWin),
      ?_, ?_, ?_, ?_, ?_, ?_⟩
    · simp [anchorAt]
    · intro r0 hmem
      have := circle_range_DrawNode cWin t _ 0 _ r0 (le_refl 0) (by decide) hmem
      simp only [anchorAt, iHeight] at this
      omega
    · intro r0 hmem
      exact not_circle_mem_PrintText _ _ _ _ _ hmem
    · intro a b hmem
      exact absurd hmem (not_line_mem_PrintText _ _ _ _ _)
    · simp only [List.length_nil, Nat.cast_zero, iMaxDepth, subtree, anchorAt]
      exact List.infix_refl _
    · simp only [subtree, anchorAt]
      exact fun c hc => hc
  | cons e es =>
    simp only [List.length_cons] at hp
    obtain ⟨pre1, post1, heq, hpre, hpost, hline, hinf, hlbl⟩ :=
      markerSplit_DrawNode cWin es e t (rootAnchor cWin) 0 (le_refl 0)
        (by simp only [iMaxDepth, Nat.cast_add, Nat.cast_one]; omega) hn
    refine ⟨pre1, post1 ++ [Cmd.DrawCircle (rootAnchor cWin) iRadius]
        ++ PrintText cWin t (rootAnchor cWin), ?_, hpre, ?_, ?_, ?_, ?_⟩
    · rw [heq]; simp only [List.append_assoc, List.cons_append]
    · intro r0 hmem
      simp only [List.mem_append, List.mem_singleton] at hmem
      rcases hmem with (h | h) | h
      · exact hpost r0 h
      · injection h with ha _
        have := congrArg CPoint.y ha
        rw [anchorAt_y] at this
        simp only [iHeight, List.length_cons, Nat.cast_add, Nat.cast_one] at this
        omega
      · exact not_circle_mem_PrintText _ _ _ _ _ h
    · intro a b hmem
      simp only [List.mem_append, List.mem_singleton] at hmem
      rcases hmem with (h | h) | h
      · exact hline a b h
      · exact absurd h (by simp)
      · exact absurd h (not_line_mem_PrintText _ _ _ _ _)
    · simpa only [zero_add, List.length_cons] using hinf
    · intro c hc
      simp only [List.mem_append]
      exact Or.inl (Or.inl (hlbl hc))

/-! ## Lines and labels emitted by `DrawNode` -/

theorem line_start_y_DrawNode (cWin : CWindow) (t : stNode_t) :
    ∀ (pPos : CfPoint) (s : Int) (a b : CfPoint),
      Cmd.DrawLine a b ∈ (DrawNode cWin t pPos s).1 → pPos.y ≤ a.y := by
  induction t with
  | null => intro pPos s a b h; simp [DrawNode] at h
  | node v l r ihl ihr =>
    intro pPos s a b h
    rw [mem_DrawNode_node] at h
    rcases h with h | h | h | h | h | h | h | h
    · obtain ⟨_, h⟩ := h
      injection h with ha hb
      subst ha; exact le_refl _
    · obtain ⟨_, h⟩ := h
      injection h with ha hb
      subst ha; exact le_refl _
    · have := ihl _ _ a b h.2
      simp only [childAnchor, iHeight] at this; omega
    · have := ihr _ _ a b h.2
      simp only [childAnchor, iHeight] at this; omega
    · exact absurd h.2 (by simp)
    · exact absurd h.2 (by simp)
    · exact absurd h (not_line_mem_PrintText _ _ _ _ _)
    · exact absurd h (not_line_mem_PrintText _ _ _ _ _)

theorem labelAt_inj (cWin : CWindow) (A B : CfPoint) (v : Int)
    (h : (labelAt cWin A v).1 = (labelAt cWin B v).1) : A = B := by
  cases A; cases B
  have hx := congrArg CPoint.x h
  have hy := congrArg CPoint.y h
  simp only [labelAt] at hx hy
  simp only [CPoint.mk.injEq]
  constructor <;> omega

theorem mem_PrintText (cWin : CWindow) (t : stNode_t) (A p : CfPoint) (v : Int) :
    Cmd.Write p v ∈ PrintText cWin t A ↔
      (∃ l r, t = .node v l r) ∧ p = (labelAt cWin A v).1 := by
  cases t with
  | null => simp [PrintText]
  | node w l r =>
    simp only [PrintText, List.mem_singleton, Cmd.Write.injEq, labelAt, stNode_t.node.injEq]
    constructor
    · rintro ⟨hp, hv⟩
      subst hv
      exact ⟨⟨l, r, rfl, rfl, rfl⟩, hp⟩
    · rintro ⟨⟨l1, r1, hw, _, _⟩, hp⟩
      subst hw
      exact ⟨hp, rfl⟩

theorem label_mem_DrawNode (cWin : CWindow) (t : stNode_t) :
    ∀ (pPos : CfPoint) (s : Int) (p : CfPoint) (w : Int),
      Cmd.Write p w ∈ (DrawNode cWin t pPos s).1 →
      ∃ A : CfPoint, pPos.y + iHeight ≤ A.y ∧ p = (labelAt cWin A w).1 := by
  induction t with
  | null => intro pPos s p w h; simp [DrawNode] at h
  | node v l r ihl ihr =>
    intro pPos s p w h
    rw [mem_DrawNode_node] at h
    rcases h with h | h | h | h | h | h | h | h
    · exact absurd h.2 (by simp)
    · exact absurd h.2 (by simp)
    · obtain ⟨A, hA, hp⟩ := ihl _ _ p w h.2
      refine ⟨A, ?_, hp⟩
      simp only [childAnchor, iHeight] at hA ⊢; omega
    · obtain ⟨A, hA, hp⟩ := ihr _ _ p w h.2
      refine ⟨A, ?_, hp⟩
      simp only [childAnchor, iHeight] at hA ⊢; omega
    · exact absurd h.2 (by simp)
    · exact absurd h.2 (by simp)
    · exact ⟨_, le_refl _, ((mem_PrintText _ _ _ _ _).mp h).2⟩
    · exact ⟨_, le_refl _, ((mem_PrintText _ _ _ _ _).mp h).2⟩

/-! ## The static counter against the depth parameter; recorded runs -/

theorem write_not_mem_DrawNode_root (cWin : CWindow) (t : stNode_t) (pPos : CfPoint) (s w : Int) :
    Cmd.Write (labelAt cWin pPos w).1 w ∉ (DrawNode cWin t pPos s).1 := by
  intro h
  obtain ⟨A, hA, hp⟩ := label_mem_DrawNode cWin t _ _ _ _ h
  have := labelAt_inj cWin _ _ _ hp
  rw [← this] at hA
  simp only [iHeight] at hA
  omega

theorem DrawNode_eq_specDrawNode (cWin : CWindow) (t : stNode_t) :
    ∀ (pPos : CfPoint) (d : Nat), d ≤ 4 →
      (DrawNode cWin t pPos d).1 = specDrawNode sourceConfig cWin t pPos d := by
  induction t with
  | null => intro pPos d _; rfl
  | node v l r ihl ihr =>
    intro pPos d hd
    have key : iAddDist d = ((2 ^ (4 - d) * 20 / 2 : Nat) : Int) := by
      interval_cases d <;> decide
    have hL : childAnchor pPos d .L
        = ⟨pPos.x - ((2 ^ (4 - d) * 20 / 2 : Nat) : Int), pPos.y + 60⟩ := by
      simp only [childAnchor, key, iHeight]
      congr 1
    have hR : childAnchor pPos d .R
        = ⟨pPos.x + ((2 ^ (4 - d) * 20 / 2 : Nat) : Int), pPos.y + 60⟩ := by
      simp only [childAnchor, key, iHeight]
    have hlt : ((d : Int) + 1 < iMaxDepth) ↔ d + 1 < 4 := by
      simp only [iMaxDepth]; omega
    rw [DrawNode_node_fst, hL, hR]
    simp only [specDrawNode, sourceConfig, iRadius]
    by_cases h : d + 1 < 4
    · have h1 := ihl ⟨pPos.x - ((2 ^ (4 - d) * 20 / 2 : Nat) : Int), pPos.y + 60⟩ (d + 1)
        (by omega)
      have h2 := ihr ⟨pPos.x + ((2 ^ (4 - d) * 20 / 2 : Nat) : Int), pPos.y + 60⟩ (d + 1)
        (by omega)
      simp only [sourceConfig, Nat.cast_add, Nat.cast_one] at h1 h2
      simp only [if_pos h, if_pos (hlt.mpr h), h1, h2, List.append_assoc]
    · simp only [if_neg h, if_neg (fun hh => h (hlt.mp hh)), List.append_nil]

theorem DrawNodeTrace_eq (cWin : CWindow) (t : stNode_t) :
    ∀ (pPos : CfPoint) (s : Int),
      ((DrawNodeTrace cWin t pPos s).cmds, (DrawNodeTrace cWin t pPos s).iDepth)
        = DrawNode cWin t pPos s := by
  induction t with
  | null => intro pPos s; rfl
  | node v l r ihl ihr =>
    intro pPos s
    have hl := fun p q => congrArg Prod.fst (ihl p q)
    have hl2 := fun p q => congrArg Prod.snd (ihl p q)
    have hr := fun p q => congrArg Prod.fst (ihr p q)
    have hr2 := fun p q => congrArg Prod.snd (ihr p q)
    simp only at hl hl2 hr hr2
    simp only [DrawNodeTrace, DrawNode]
    by_cases h : s + 1 < iMaxDepth
    · simp only [if_pos h, hl, hl2, hr, hr2]
      by_cases h2 : (DrawNode cWin l ⟨pPos.x + -iAddDist s, pPos.y + iHeight⟩ (s + 1)).2
          < iMaxDepth
      · simp only [if_pos h2, hr, hr2]
      · simp only [if_neg h2]
    · simp only [if_neg h]

theorem DrawNodeTrace_iDepth (cWin : CWindow) (t : stNode_t) (pPos : CfPoint) (s : Int) :
    (DrawNodeTrace cWin t pPos s).iDepth = s := by
  have := congrArg Prod.snd (DrawNodeTrace_eq cWin t pPos s)
  simp only at this
  rw [this, DrawNode_snd]

theorem DrawNodeTrace_inv (cWin : CWindow) (t : stNode_t) :
    ∀ (k : Nat) (s : Int) (pPos : CfPoint), s + k = iMaxDepth → 1 ≤ k →
      (DrawNodeTrace cWin t pPos s).nesting ≤ k
        ∧ (DrawNodeTrace cWin t pPos s).offsetDepths.length + 1 ≤ 2 ^ k
        ∧ (∀ c ∈ (DrawNodeTrace cWin t pPos s).offsetDepths, s ≤ c ∧ c < iMaxDepth)
        ∧ (∀ c ∈ (DrawNodeTrace cWin t pPos s).counterValues, s ≤ c ∧ c ≤ iMaxDepth)
        ∧ (DrawNodeTrace cWin t pPos s).cmds.length
            ≤ 6 * (DrawNodeTrace cWin t pPos s).offsetDepths.length := by
  induction t with
  | null =>
    intro k s pPos _ hk
    simp only [DrawNodeTrace, List.length_nil, List.not_mem_nil, false_implies, implies_true,
      true_and, and_true, Nat.zero_le, Nat.mul_zero, le_refl]
    exact Nat.one_le_two_pow
  | node v l r ihl ihr =>
    intro k s pPos hs hk
    obtain ⟨k, rfl⟩ : ∃ j, k = j + 1 := ⟨k - 1, by omega⟩
    simp only [iMaxDepth, Nat.cast_add, Nat.cast_one] at hs
    simp only [DrawNodeTrace]
    by_cases h : s + 1 < iMaxDepth
    · have hk1 : 1 ≤ k := by simp only [iMaxDepth] at h; omega
      have hs1 : s + 1 + (k : Int) = iMaxDepth := by simp only [iMaxDepth]; omega
      simp only [if_pos h, DrawNodeTrace_iDepth]
      obtain ⟨l1, l2, l3, l4, l5⟩ := ihl k (s + 1) ⟨pPos.x + -iAddDist s, pPos.y + iHeight⟩ hs1 hk1
      obtain ⟨r1, r2, r3, r4, r5⟩ := ihr k (s + 1) ⟨pPos.x + iAddDist s, pPos.y + iHeight⟩ hs1 hk1
      refine ⟨?_, ?_, ?_, ?_, ?_⟩
      · have := max_le l1 r1
        omega
      · simp only [List.length_cons, List.length_append]
        rw [pow_succ]
        omega
      · intro c hc
        simp only [List.mem_cons, List.mem_append] at hc
        rcases hc with hc | hc | hc
        · subst hc; simp only [iMaxDepth] at h ⊢; omega
        · have := l3 c hc; omega
        · have := r3 c hc; omega
      · intro c hc
        simp only [List.mem_cons, List.mem_append, List.not_mem_nil, or_false] at hc
        simp only [iMaxDepth] at h ⊢
        rcases hc with hc | (hc | hc) | hc
        · subst hc; omega
        · have := l4 c hc; simp only [iMaxDepth] at this; omega
        · have := r4 c hc; simp only [iMaxDepth] at this; omega
        · subst hc; omega
      · simp only [List.length_append, List.length_cons]
        have e1 : ∀ (b : Bool) (x : Cmd), (if b = true then [x] else []).length ≤ 1 := by
          intro b x; cases b <;> simp
        have e2 : ∀ (t : stNode_t) (p : CfPoint), (PrintText cWin t p).length ≤ 1 := by
          intro t p; cases t <;> simp [PrintText]
        have a1 := e1 l.nonNull (Cmd.DrawLine pPos ⟨pPos.x + -iAddDist s, pPos.y + iHeight⟩)
        have a2 := e1 r.nonNull (Cmd.DrawLine pPos ⟨pPos.x + iAddDist s, pPos.y + iHeight⟩)
        have a3 := e1 l.nonNull (Cmd.DrawCircle ⟨pPos.x + -iAddDist s, pPos.y + iHeight⟩ iRadius)
        have a4 := e1 r.nonNull (Cmd.DrawCircle ⟨pPos.x + iAddDist s, pPos.y + iHeight⟩ iRadius)
        have a5 := e2 l ⟨pPos.x + -iAddDist s, pPos.y + iHeight⟩
        have a6 := e2 r ⟨pPos.x + iAddDist s, pPos.y + iHeight⟩
        omega
    · have hk0 : k = 0 := by simp only [iMaxDepth] at h; omega
      subst hk0
      simp only [if_neg h]
      refine ⟨?_, ?_, ?_, ?_, ?_⟩
      · simp
      · simp
      · intro c hc
        simp only [List.append_nil, List.mem_singleton] at hc
        subst hc; simp only [iMaxDepth] at h ⊢; omega
      · intro c hc
        simp only [List.append_nil, List.nil_append, List.mem_cons, List.mem_singleton,
          List.not_mem_nil, or_false] at hc
        simp only [iMaxDepth] at h ⊢
        rcases hc with hc | hc
        · subst hc; omega
        · subst hc; omega
      · simp only [List.length_append, List.length_cons, List.length_nil]
        have e1 : ∀ (b : Bool) (x : Cmd), (if b = true then [x] else []).length ≤ 1 := by
          intro b x; cases b <;> simp
        have e2 : ∀ (t : stNode_t) (p : CfPoint), (PrintText cWin t p).length ≤ 1 := by
          intro t p; cases t <;> simp [PrintText]
        have a1 := e1 l.nonNull (Cmd.DrawLine pPos ⟨pPos.x + -iAddDist s, pPos.y + iHeight⟩)
        have a2 := e1 r.nonNull (Cmd.DrawLine pPos ⟨pPos.x + iAddDist s, pPos.y + iHeight⟩)
        have a3 := e1 l.nonNull (Cmd.DrawCircle ⟨pPos.x + -iAddDist s, pPos.y + iHeight⟩ iRadius)
        have a4 := e1 r.nonNull (Cmd.DrawCircle ⟨pPos.x + iAddDist s, pPos.y + iHeight⟩ iRadius)
        have a5 := e2 l ⟨pPos.x + -iAddDist s, pPos.y + iHeight⟩
        have a6 := e2 r ⟨pPos.x + iAddDist s, pPos.y + iHeight⟩
        omega

/-! ## Centred text boxes -/

/-- C3 (evaluation at the failing input): called with a null root, `DrawTree`
still emits one command, the circle at the root anchor; only the label and
the recursive pass are guarded by the null test. -/
theorem C3_null_root_draws_circle (cWin : CWindow) (d s : Int) :
    (DrawTree cWin d .null s).1 = [Cmd.DrawCircle ⟨Int.tdiv cWin.cx 2, 77⟩ 12]
      ∧ (DrawTree sampleWindow 5 .null 0).1 = [Cmd.DrawCircle ⟨350, 77⟩ 12] := by
  constructor
  · rfl
  · decide

/-- C4: `AddNode(l, r)` on a node without children gives it a left child iff
`l > 0` and a right child iff `r > 0`; a created child holds the given value
and has no children, and the node keeps its value. With `l = -1`, `r = 5` the
left child stays absent and the right child is the leaf 5. -/
theorem C4_AddNode_children (v l r : Int) :
    (∃ n, AddNode (.node v .null .null) l r = some n
        ∧ n.value = v
        ∧ (subtree n [.L] ≠ .null ↔ l > 0)
        ∧ (subtree n [.R] ≠ .null ↔ r > 0)
        ∧ (l > 0 → subtree n [.L] = .node l .null .null)
        ∧ (r > 0 → subtree n [.R] = .node r .null .null))
      ∧ AddNode (.node v .null .null) (-1) 5 = some (.node v .null (.node 5 .null .null)) := by
  refine ⟨⟨_, rfl, rfl, ?_, ?_, ?_, ?_⟩, rfl⟩
  · by_cases h : l > 0 <;> simp [subtree, h]
  · by_cases h : r > 0 <;> simp [subtree, h]
  · intro h; simp [subtree, h]
  · intro h; simp [subtree, h]

/-- C4 (witness): `AddNode(-1, 5)` on a childless node of value 7. -/
theorem C4_AddNode_children_witness :
    AddNode (.node 7 .null .null) (-1) 5 = some (.node 7 .null (.node 5 .null .null))
      ∧ ((5 : Int) > 0 → subtree (.node 7 .null (.node 5 .null .null)) [.R] = .node 5 .null .null)
      ∧ ¬ ((-1 : Int) > 0) :=
  ⟨(C4_AddNode_children 7 (-1) 5).2, fun _ => rfl, by decide⟩

/-- C9: two `DrawTree` calls on the same tree and window emit the same command
sequence, the second call starting from the static counter value the first one
left behind (which is the initial value 0 again). -/
theorem C9_draw_twice_same (cWin : CWindow) (d : Int) (t : stNode_t) :
    (DrawTree cWin d t (DrawTree cWin d t 0).2).1 = (DrawTree cWin d t 0).1
      ∧ (DrawTree cWin d t 0).2 = 0 := by
  rw [DrawTree_snd]
  exact ⟨rfl, rfl⟩

/-- C10 (counterexample): with depth argument 0 the call on the tree of `main`
is not rejected: it emits commands, among them the root circle. -/
theorem C10_counterexample :
    ¬ (∀ d : Int, d ≤ 0 → (DrawTree sampleWindow d sampleTree 0).1 = []) := by
  intro h
  have h0 := h 0 (le_refl 0)
  revert h0
  decide

/-- C10 (amended): `DrawTree` does not look at its depth argument. Called with
a zero or negative maximum depth it is not rejected: for every tree it
returns exactly what it returns for any other depth argument `d2`, and for a
tree with a non-null root the commands include the circle at the root anchor. -/
theorem C10_nonpositive_depth_draws (cWin : CWindow) (d d2 : Int) (t : stNode_t) (s : Int)
    (hd : d ≤ 0) :
    DrawTree cWin d t s = DrawTree cWin d2 t s
      ∧ (t.nonNull = true →
          Cmd.DrawCircle (rootAnchor cWin) iRadius ∈ (DrawTree cWin d t s).1) := by
  have _ := hd
  refine ⟨rfl, ?_⟩
  intro _
  rw [DrawTree_fst]
  simp

/-- C10 (witness): depth argument 0 against the argument 5 of `main`, on the
tree of `main`. -/
theorem C10_nonpositive_depth_draws_witness :
    (0 : Int) ≤ 0 ∧ sampleTree.nonNull = true
      ∧ DrawTree sampleWindow 0 sampleTree 0 = DrawTree sampleWindow 5 sampleTree 0
      ∧ Cmd.DrawCircle (rootAnchor sampleWindow) iRadius
          ∈ (DrawTree sampleWindow 0 sampleTree 0).1 :=
  ⟨le_refl 0, by decide,
    (C10_nonpositive_depth_draws sampleWindow 0 5 sampleTree 0 (le_refl 0)).1,
    (C10_nonpositive_depth_draws sampleWindow 0 5 sampleTree 0 (le_refl 0)).2 (by decide)⟩

/-! ## Claims about offsets and anchors -/

/-- C6 (counterexample): the root of the tree of `main` is joined to its left
child by a line of horizontal extent 160, and there is no line of extent 80
from the root anchor. -/
theorem C6_counterexample :
    iAddDist 0 ≠ 80
      ∧ Cmd.DrawLine ⟨350, 77⟩ ⟨350 - 160, 137⟩ ∈ (DrawTree sampleWindow 5 sampleTree 0).1
      ∧ Cmd.DrawLine ⟨350, 77⟩ ⟨350 - 80, 137⟩ ∉ (DrawTree sampleWindow 5 sampleTree 0).1 := by
  decide

/-- C6 (amended): with `iDist = 20` and `iMaxDepth = 4`, the horizontal offset
between a node at depth `d` and each of its children is
`2^(iMaxDepth - d) * iDist / 2`: 160, 80, 40 and 20 for `d = 0, 1, 2, 3`, and
these are the offsets of the child anchors `DrawNode` uses. -/
theorem C6_offsets (d : Nat) (hd : d ≤ 3) :
    iAddDist d = ((2 ^ (4 - d) * 20 / 2 : Nat) : Int)
      ∧ (iAddDist 0 = 160 ∧ iAddDist 1 = 80 ∧ iAddDist 2 = 40 ∧ iAddDist 3 = 20)
      ∧ (∀ pPos : CfPoint,
          (childAnchor pPos d .L).x = pPos.x - ((2 ^ (4 - d) * 20 / 2 : Nat) : Int)
          ∧ (childAnchor pPos d .R).x = pPos.x + ((2 ^ (4 - d) * 20 / 2 : Nat) : Int))
      ∧ (∀ (cWin : CWindow) (v : Int) (l r : stNode_t) (pPos : CfPoint),
          (l.nonNull → Cmd.DrawLine pPos (childAnchor pPos d .L)
              ∈ (DrawNode cWin (.node v l r) pPos d).1)
          ∧ (r.nonNull → Cmd.DrawLine pPos (childAnchor pPos d .R)
              ∈ (DrawNode cWin (.node v l r) pPos d).1)) := by
  have key : iAddDist d = ((2 ^ (4 - d) * 20 / 2 : Nat) : Int) := by
    interval_cases d <;> decide
  refine ⟨key, by decide, ?_, ?_⟩
  · intro pPos
    simp only [childAnchor, key]
    exact ⟨(sub_eq_add_neg _ _).symm, trivial⟩
  · intro cWin v l r pPos
    rw [DrawNode_node_fst]
    constructor <;> intro h <;> simp [h]

/-- C6 (witness): depth 0, offset 160. -/
theorem C6_offsets_witness :
    (0 : Nat) ≤ 3 ∧ iAddDist (0 : Nat) = ((2 ^ (4 - 0) * 20 / 2 : Nat) : Int) :=
  ⟨by decide, (C6_offsets 0 (by decide)).1⟩

/-- C7: when `DrawNode` runs on a non-null node at depth `d` with anchor
`(x, y)`, the lines, circles and labels of its children (and the recursive
calls) use the anchors `left = (x - off, y + 60)` and `right = (x + off, y + 60)`
with `off = 2^(4 - d) * 20 / 2`. -/
theorem C7_child_anchors (cWin : CWindow) (v : Int) (l r : stNode_t) (x y : Int) (d : Nat)
    (hd : d ≤ 4) :
    (DrawNode cWin (.node v l r) ⟨x, y⟩ d).1 =
      (if l.nonNull then
          [Cmd.DrawLine ⟨x, y⟩ ⟨x - ((2 ^ (4 - d) * 20 / 2 : Nat) : Int), y + 60⟩] else [])
      ++ (if r.nonNull then
          [Cmd.DrawLine ⟨x, y⟩ ⟨x + ((2 ^ (4 - d) * 20 / 2 : Nat) : Int), y + 60⟩] else [])
      ++ (if d + 1 < 4 then
          (DrawNode cWin l ⟨x - ((2 ^ (4 - d) * 20 / 2 : Nat) : Int), y + 60⟩ (d + 1)).1 else [])
      ++ (if d + 1 < 4 then
          (DrawNode cWin r ⟨x + ((2 ^ (4 - d) * 20 / 2 : Nat) : Int), y + 60⟩ (d + 1)).1 else [])
      ++ (if l.nonNull then
          [Cmd.DrawCircle ⟨x - ((2 ^ (4 - d) * 20 / 2 : Nat) : Int), y + 60⟩ 12] else [])
      ++ (if r.nonNull then
          [Cmd.DrawCircle ⟨x + ((2 ^ (4 - d) * 20 / 2 : Nat) : Int), y + 60⟩ 12] else [])
      ++ PrintText cWin l ⟨x - ((2 ^ (4 - d) * 20 / 2 : Nat) : Int), y + 60⟩
      ++ PrintText cWin r ⟨x + ((2 ^ (4 - d) * 20 / 2 : Nat) : Int), y + 60⟩ := by
  have key : iAddDist d = ((2 ^ (4 - d) * 20 / 2 : Nat) : Int) := by
    interval_cases d <;> decide
  have hL : childAnchor ⟨x, y⟩ d .L = ⟨x - ((2 ^ (4 - d) * 20 / 2 : Nat) : Int), y + 60⟩ := by
    simp only [childAnchor, key, iHeight]
    congr 1
  have hR : childAnchor ⟨x, y⟩ d .R = ⟨x + ((2 ^ (4 - d) * 20 / 2 : Nat) : Int), y + 60⟩ := by
    simp only [childAnchor, key, iHeight]
  have hlt : ((d : Int) + 1 < iMaxDepth) ↔ d + 1 < 4 := by
    simp only [iMaxDepth]; omega
  rw [DrawNode_node_fst, hL, hR]
  simp only [hlt, iRadius]

/-- C7 (witness): the root of the tree of `main` at `(350, 77)`, depth 0. -/
theorem C7_child_anchors_witness :
    (0 : Nat) ≤ 4 ∧
    (DrawNode sampleWindow (.node 1 (.node 2 .null .null) .null) ⟨350, 77⟩ (0 : Nat)).1 =
      [Cmd.DrawLine ⟨350, 77⟩ ⟨190, 137⟩, Cmd.DrawCircle ⟨190, 137⟩ 12,
        Cmd.Write ⟨186, 129⟩ 2] :=
  ⟨by decide, C7_child_anchors sampleWindow 1 (.node 2 .null .null) .null 350 77 0 (by decide)⟩

/-! ## Claims about which nodes are drawn -/

/-- C1 (counterexample): in the left chain `deepTree` the node at depth 4
(path L,L,L,L, beyond depth `iMaxDepth - 1 = 3`) exists and `DrawTree` emits its
circle, at anchor `(50, 317)`. -/
theorem C1_counterexample :
    (subtree deepTree [.L, .L, .L, .L]).nonNull = true
      ∧ ¬ ((([Dir.L, .L, .L, .L] : List Dir).length : Int) ≤ iMaxDepth - 1)
      ∧ anchorAt (rootAnchor sampleWindow) 0 [.L, .L, .L, .L] = ⟨50, 317⟩
      ∧ Cmd.DrawCircle (anchorAt (rootAnchor sampleWindow) 0 [.L, .L, .L, .L]) iRadius
          ∈ (DrawTree sampleWindow 4 deepTree 0).1 := by
  decide

/-- C1 (amended): for every tree with a non-null root, the nodes for which
`DrawTree` emits a circle are exactly the nodes at depth `0 .. iMaxDepth`
(five levels, `iMaxDepth = 4`): the circle centres are, with multiplicity, the
anchors of the paths of length at most 4 to existing nodes; distinct paths have
distinct anchors; an existing node has its circle emitted iff its depth is at
most 4; and every emitted circle has radius `iRadius` and is such a node's. -/
theorem C1_drawn_markers (cWin : CWindow) (d : Int) (t : stNode_t)
    (ht : t.nonNull = true) :
    (circleCentres (DrawTree cWin d t 0).1).Perm
        ((nodePaths t 4).map (anchorAt (rootAnchor cWin) 0))
      ∧ (∀ p, p ∈ nodePaths t 4 ↔ p.length ≤ 4 ∧ (subtree t p).nonNull = true)
      ∧ (∀ p q : List Dir, q.length ≤ 4 →
          anchorAt (rootAnchor cWin) 0 p = anchorAt (rootAnchor cWin) 0 q → p = q)
      ∧ (∀ p, (subtree t p).nonNull = true →
          (Cmd.DrawCircle (anchorAt (rootAnchor cWin) 0 p) iRadius ∈ (DrawTree cWin d t 0).1
            ↔ p.length ≤ 4))
      ∧ (∀ c r, Cmd.DrawCircle c r ∈ (DrawTree cWin d t 0).1 →
          r = iRadius ∧ ∃ p, p.length ≤ 4 ∧ (subtree t p).nonNull = true
            ∧ c = anchorAt (rootAnchor cWin) 0 p) := by
  have hperm := circles_DrawTree cWin d t ht
  have hinj : ∀ p q : List Dir, q.length ≤ 4 →
      anchorAt (rootAnchor cWin) 0 p = anchorAt (rootAnchor cWin) 0 q → p = q := by
    intro p q hq h
    exact anchorAt_inj p q _ 0 (le_refl 0) (by simp only [iMaxDepth]; omega) h
  have hrad : ∀ c r, Cmd.DrawCircle c r ∈ (DrawTree cWin d t 0).1 → r = iRadius := by
    intro c r h
    rw [DrawTree_fst] at h
    simp only [List.mem_append, PrintText_eq] at h
    rcases h with ((h | h) | h)
    · exact circle_radius_DrawNode cWin t _ _ _ _ h
    · simp at h; exact h.2
    · split_ifs at h; simp at h
  have hmem : ∀ c, (∃ r, Cmd.DrawCircle c r ∈ (DrawTree cWin d t 0).1) ↔
      ∃ p, (p.length ≤ 4 ∧ (subtree t p).nonNull = true)
        ∧ anchorAt (rootAnchor cWin) 0 p = c := by
    intro c
    rw [← mem_circleCentres, hperm.mem_iff, List.mem_map]
    simp only [mem_nodePaths]
  refine ⟨hperm, fun p => mem_nodePaths t 4 p, hinj, ?_, ?_⟩
  · intro p hp
    constructor
    · intro h
      obtain ⟨q, ⟨hq, _⟩, hqa⟩ := (hmem _).mp ⟨_, h⟩
      have := hinj p q hq hqa.symm
      rw [this]; exact hq
    · intro h
      obtain ⟨r, hr⟩ := (hmem _).mpr ⟨p, ⟨h, hp⟩, rfl⟩
      rw [← hrad _ _ hr]; exact hr
  · intro c r h
    obtain ⟨p, ⟨hp, hn⟩, hpa⟩ := (hmem c).mp ⟨r, h⟩
    exact ⟨hrad c r h, p, hp, hn, hpa.symm⟩

/-- C1 (witness): the tree of `main` in a window 700 wide. -/
theorem C1_drawn_markers_witness :
    sampleTree.nonNull = true
      ∧ (circleCentres (DrawTree sampleWindow 5 sampleTree 0).1).Perm
        ((nodePaths sampleTree 4).map (anchorAt (rootAnchor sampleWindow) 0)) :=
  ⟨by decide, (C1_drawn_markers sampleWindow 5 sampleTree (by decide)).1⟩

/-- C2: for the tree built by `main` (root 1; 1->(2,3); 2->(4,5); 3->(6,7);
7->(8,-1); 4->(9,10); 5->(11,12)), in a window 700 wide and for any text
measure, `DrawTree` emits exactly twelve circles, one at the anchor of each of
the nodes 1..12 (the anchors are pairwise distinct), and exactly twelve labels,
one per value 1..12, each centred on the anchor of its node. -/
theorem C2_sample_tree_drawn (sz : Int → CPoint) (d : Int) :
    mainTree = some sampleTree
      ∧ (circleCentres (DrawTree (mainWindow sz) d sampleTree 0).1).Perm
          [⟨350, 77⟩, ⟨190, 137⟩, ⟨510, 137⟩, ⟨110, 197⟩, ⟨270, 197⟩, ⟨430, 197⟩,
            ⟨590, 197⟩, ⟨550, 257⟩, ⟨70, 257⟩, ⟨150, 257⟩, ⟨230, 257⟩, ⟨310, 257⟩]
      ∧ ([⟨350, 77⟩, ⟨190, 137⟩, ⟨510, 137⟩, ⟨110, 197⟩, ⟨270, 197⟩, ⟨430, 197⟩,
            ⟨590, 197⟩, ⟨550, 257⟩, ⟨70, 257⟩, ⟨150, 257⟩, ⟨230, 257⟩, ⟨310, 257⟩]
            : List CfPoint).Nodup
      ∧ (labels (DrawTree (mainWindow sz) d sampleTree 0).1).Perm
          (([(⟨350, 77⟩, 1), (⟨190, 137⟩, 2), (⟨510, 137⟩, 3), (⟨110, 197⟩, 4),
            (⟨270, 197⟩, 5), (⟨430, 197⟩, 6), (⟨590, 197⟩, 7), (⟨550, 257⟩, 8),
            (⟨70, 257⟩, 9), (⟨150, 257⟩, 10), (⟨230, 257⟩, 11), (⟨310, 257⟩, 12)]
            : List (CfPoint × Int)).map (fun av => labelAt (mainWindow sz) av.1 av.2))
      ∧ ((labels (DrawTree (mainWindow sz) d sampleTree 0).1).map Prod.snd).Perm
          [1, 2, 3, 4, 5, 6, 7, 8, 9, 10, 11, 12] := by
  have hroot : rootAnchor (mainWindow sz) = ⟨350, 77⟩ := by
    simp only [rootAnchor, mainWindow]
    decide
  have hc := circles_DrawTree (mainWindow sz) d sampleTree (by decide)
  have hl := labels_DrawTree (mainWindow sz) d sampleTree (by decide)
  rw [hroot] at hc hl
  have hl2 : (labels (DrawTree (mainWindow sz) d sampleTree 0).1).Perm
      (((nodePaths sampleTree 4).map
          (fun p => ((anchorAt ⟨350, 77⟩ 0 p, (subtree sampleTree p).value) : CfPoint × Int))).map
        (fun av => labelAt (mainWindow sz) av.1 av.2)) := by
    rw [List.map_map]
    exact hl
  have hlabels : (labels (DrawTree (mainWindow sz) d sampleTree 0).1).Perm
      (([(⟨350, 77⟩, 1), (⟨190, 137⟩, 2), (⟨510, 137⟩, 3), (⟨110, 197⟩, 4),
        (⟨270, 197⟩, 5), (⟨430, 197⟩, 6), (⟨590, 197⟩, 7), (⟨550, 257⟩, 8),
        (⟨70, 257⟩, 9), (⟨150, 257⟩, 10), (⟨230, 257⟩, 11), (⟨310, 257⟩, 12)]
        : List (CfPoint × Int)).map (fun av => labelAt (mainWindow sz) av.1 av.2)) :=
    hl2.trans (List.Perm.map _ (by decide))
  refine ⟨by decide, hc.trans (by decide), by decide, hlabels, ?_⟩
  refine (hlabels.map Prod.snd).trans ?_
  rw [List.map_map]
  exact List.Perm.of_eq rfl

/-- C5 (counterexample): in the left chain `deepTree` the node at depth 3
(anchor `(70, 257)`) has a child at depth 4, and that child produces a line,
a circle and a label; cutting the tree below depth 3 changes the drawing. -/
theorem C5_counterexample :
    (subtree deepTree [.L, .L, .L]).nonNull = true
      ∧ Cmd.DrawLine ⟨70, 257⟩ ⟨50, 317⟩ ∈ (DrawTree sampleWindow 5 deepTree 0).1
      ∧ Cmd.DrawCircle ⟨50, 317⟩ 12 ∈ (DrawTree sampleWindow 5 deepTree 0).1
      ∧ Cmd.Write ⟨46, 309⟩ 5 ∈ (DrawTree sampleWindow 5 deepTree 0).1
      ∧ DrawTree sampleWindow 5 (truncate 3 deepTree) 0 ≠ DrawTree sampleWindow 5 deepTree 0 := by
  decide

/-- C5 (amended): the cutoff is one level lower than claimed. For every tree, a
node at depth `iMaxDepth = 4` (root = depth 0) has the edge into it drawn,
but its own children never produce any command: the whole command sequence is
the one of the tree cut below depth 4, whatever lies below. -/
theorem C5_cutoff_below_depth4 (cWin : CWindow) (d : Int) (t : stNode_t) :
    (DrawTree cWin d (truncate 4 t) 0).1 = (DrawTree cWin d t 0).1
      ∧ (∀ (q : List Dir) (dir : Dir), q.length = 3 →
          (subtree t (q ++ [dir])).nonNull = true →
          Cmd.DrawLine (anchorAt (rootAnchor cWin) 0 q) (anchorAt (rootAnchor cWin) 0 (q ++ [dir]))
            ∈ (DrawTree cWin d t 0).1) := by
  constructor
  · rw [DrawTree_fst, DrawTree_fst, DrawNode_truncate cWin t 4 0 _ (by decide) (by decide),
      PrintText_truncate]
  · intro q dir hq hn
    rw [DrawTree_fst]
    have := line_mem_DrawNode cWin q t (rootAnchor cWin) 0 dir
      (by simp only [iMaxDepth, hq]; decide) hn
    simp only [List.mem_append]
    exact Or.inl (Or.inl this)

/-- C5 (witness): the chain `deepTree`, whose depth-4 node has a child. -/
theorem C5_cutoff_below_depth4_witness :
    ([Dir.L, .L, .L] : List Dir).length = 3
      ∧ (subtree deepTree ([Dir.L, .L, .L] ++ [Dir.L])).nonNull = true
      ∧ (subtree deepTree [.L, .L, .L, .L, .L]).nonNull = true
      ∧ Cmd.DrawLine (anchorAt (rootAnchor sampleWindow) 0 [.L, .L, .L])
          (anchorAt (rootAnchor sampleWindow) 0 ([Dir.L, .L, .L] ++ [Dir.L]))
          ∈ (DrawTree sampleWindow 5 deepTree 0).1
      ∧ (DrawTree sampleWindow 5 (truncate 4 deepTree) 0).1
          = (DrawTree sampleWindow 5 deepTree 0).1 :=
  ⟨by decide, by decide, by decide,
    (C5_cutoff_below_depth4 sampleWindow 5 deepTree).2 [.L, .L, .L] .L (by decide) (by decide),
    (C5_cutoff_below_depth4 sampleWindow 5 deepTree).1⟩

/-! ## Claims about the order of emission -/

/-- C11: when `DrawNode` runs on a node (counter `0 ≤ s ≤ 3`) anchored at `pPos`,
every circle drawn for the left child's subtree (the left child's own circle
and the circles of the recursive call on it) lies strictly left of every
circle drawn for the right child's subtree, radii included, with the parent's
`x` strictly between: `c.x + 12 < pPos.x < c1.x - 12`. These two groups are
all the circles the call emits, and the same holds for the anchors of all
paths through the left and the right child down to the cutoff. -/
theorem C11_sibling_subtrees_disjoint (cWin : CWindow) (v : Int) (l r : stNode_t)
    (pPos : CfPoint) (s : Int) (h0 : 0 ≤ s) (h3 : s + 1 ≤ iMaxDepth) :
    (∀ c r0 c1 r1,
        Cmd.DrawCircle c r0 ∈
            (if l.nonNull then [Cmd.DrawCircle (childAnchor pPos s .L) iRadius] else [])
              ++ (if s + 1 < iMaxDepth then
                (DrawNode cWin l (childAnchor pPos s .L) (s + 1)).1 else []) →
        Cmd.DrawCircle c1 r1 ∈
            (if r.nonNull then [Cmd.DrawCircle (childAnchor pPos s .R) iRadius] else [])
              ++ (if s + 1 < iMaxDepth then
                (DrawNode cWin r (childAnchor pPos s .R) (s + 1)).1 else []) →
        r0 = iRadius ∧ r1 = iRadius
          ∧ c.x + iRadius < pPos.x ∧ pPos.x < c1.x - iRadius
          ∧ c.x + iRadius < c1.x - iRadius)
      ∧ (∀ c r0, Cmd.DrawCircle c r0 ∈ (DrawNode cWin (.node v l r) pPos s).1 ↔
          (Cmd.DrawCircle c r0 ∈
            (if l.nonNull then [Cmd.DrawCircle (childAnchor pPos s .L) iRadius] else [])
              ++ (if s + 1 < iMaxDepth then
                (DrawNode cWin l (childAnchor pPos s .L) (s + 1)).1 else [])
          ∨ Cmd.DrawCircle c r0 ∈
            (if r.nonNull then [Cmd.DrawCircle (childAnchor pPos s .R) iRadius] else [])
              ++ (if s + 1 < iMaxDepth then
                (DrawNode cWin r (childAnchor pPos s .R) (s + 1)).1 else [])))
      ∧ (∀ p q : List Dir, s + 1 + p.length ≤ iMaxDepth → s + 1 + q.length ≤ iMaxDepth →
          (anchorAt pPos s (.L :: p)).x + iRadius < pPos.x
            ∧ pPos.x < (anchorAt pPos s (.R :: q)).x - iRadius
            ∧ (anchorAt pPos s (.L :: p)).x + iRadius < (anchorAt pPos s (.R :: q)).x - iRadius) := by
  simp only [iMaxDepth] at h3
  have hf := span_facts s h0 (by omega)
  have hside : ∀ (t : stNode_t) (e : Dir) (c : CfPoint) (r0 : Int),
      Cmd.DrawCircle c r0 ∈
          (if t.nonNull then [Cmd.DrawCircle (childAnchor pPos s e) iRadius] else [])
            ++ (if s + 1 < iMaxDepth then
              (DrawNode cWin t (childAnchor pPos s e) (s + 1)).1 else []) →
      r0 = iRadius ∧ (childAnchor pPos s e).x - span (s + 1) ≤ c.x
        ∧ c.x ≤ (childAnchor pPos s e).x + span (s + 1) := by
    intro t e c r0 h
    rw [List.mem_append, mem_ite_singleton, mem_ite_list] at h
    rcases h with ⟨_, h⟩ | ⟨hlt, h⟩
    · injection h with hc hr
      subst hc
      exact ⟨hr, by omega, by omega⟩
    · have := circle_range_DrawNode cWin t _ (s + 1) c r0 (by omega) (by omega) h
      exact ⟨circle_radius_DrawNode cWin t _ _ _ _ h, this.1, this.2.1⟩
  refine ⟨?_, ?_, ?_⟩
  · intro c r0 c1 r1 hl hr
    have h1 := hside l .L c r0 hl
    have h2 := hside r .R c1 r1 hr
    simp only [childAnchor, iRadius] at h1 h2 ⊢
    refine ⟨h1.1, h2.1, ?_, ?_, ?_⟩ <;> omega
  · intro c r0
    rw [mem_DrawNode_node]
    simp only [List.mem_append, mem_ite_singleton, mem_ite_list, List.mem_singleton]
    constructor
    · rintro (h | h | h | h | h | h | h | h)
      · exact absurd h.2 (by simp)
      · exact absurd h.2 (by simp)
      · exact Or.inl (Or.inr h)
      · exact Or.inr (Or.inr h)
      · exact Or.inl (Or.inl h)
      · exact Or.inr (Or.inl h)
      · exact absurd h (not_circle_mem_PrintText _ _ _ _ _)
      · exact absurd h (not_circle_mem_PrintText _ _ _ _ _)
    · rintro ((h | h) | (h | h))
      · exact Or.inr (Or.inr (Or.inr (Or.inr (Or.inl h))))
      · exact Or.inr (Or.inr (Or.inl h))
      · exact Or.inr (Or.inr (Or.inr (Or.inr (Or.inr (Or.inl h)))))
      · exact Or.inr (Or.inr (Or.inr (Or.inl h)))
  · intro p q hp hq
    have h1 := anchorAt_x_range p (childAnchor pPos s .L) (s + 1) (by omega) (by omega)
    have h2 := anchorAt_x_range q (childAnchor pPos s .R) (s + 1) (by omega) (by omega)
    simp only [anchorAt, childAnchor, iRadius] at h1 h2 ⊢
    refine ⟨?_, ?_, ?_⟩ <;> omega

/-- C11 (witness): the root of the tree of `main`, paths L,R,R and R,L,L. -/
theorem C11_sibling_subtrees_disjoint_witness :
    (0 : Int) ≤ 0 ∧ (0 : Int) + 1 ≤ iMaxDepth
      ∧ (anchorAt ⟨350, 77⟩ 0 (.L :: [.R, .R])).x + iRadius < 350
      ∧ (350 : Int) < (anchorAt ⟨350, 77⟩ 0 (.R :: [.L, .L])).x - iRadius
      ∧ (anchorAt ⟨350, 77⟩ 0 (.L :: [.R, .R])).x + iRadius
          < (anchorAt ⟨350, 77⟩ 0 (.R :: [.L, .L])).x - iRadius :=
  ⟨by decide, by decide,
    (C11_sibling_subtrees_disjoint sampleWindow 1 (subtree sampleTree [.L])
      (subtree sampleTree [.R]) ⟨350, 77⟩ 0 (by decide) (by decide)).2.2
      [.R, .R] [.L, .L] (by decide) (by decide)⟩

/-- C12: in a window 700 wide, for every tree, every emitted circle has radius
12 and satisfies `0 ≤ x - 12` and `x + 12 ≤ 700`, and both endpoints of every
emitted line have `0 ≤ x ≤ 700`. -/
theorem C12_fits_canvas_width (sz : Int → CPoint) (d : Int) (t : stNode_t) :
    (∀ c r, Cmd.DrawCircle c r ∈ (DrawTree (mainWindow sz) d t 0).1 →
        r = 12 ∧ 0 ≤ c.x - 12 ∧ c.x + 12 ≤ 700)
      ∧ (∀ a b, Cmd.DrawLine a b ∈ (DrawTree (mainWindow sz) d t 0).1 →
        (0 ≤ a.x ∧ a.x ≤ 700) ∧ (0 ≤ b.x ∧ b.x ≤ 700)) := by
  have hroot : rootAnchor (mainWindow sz) = ⟨350, 77⟩ := by
    simp only [rootAnchor, mainWindow]; decide
  have hspan : span 0 = 300 := by decide
  constructor
  · intro c r h
    rw [DrawTree_fst, hroot] at h
    simp only [List.mem_append, List.mem_singleton] at h
    rcases h with (h | h) | h
    · have h1 := circle_range_DrawNode _ t _ 0 c r (le_refl 0) (by decide) h
      have h2 := circle_radius_DrawNode _ t _ _ _ _ h
      rw [hspan] at h1
      simp only [iRadius] at h2
      dsimp only at h1
      exact ⟨h2, by omega, by omega⟩
    · injection h with hc hr
      subst hc
      simp only [iRadius] at hr
      exact ⟨hr, by decide, by decide⟩
    · exact absurd h (not_circle_mem_PrintText _ _ _ _ _)
  · intro a b h
    rw [DrawTree_fst, hroot] at h
    simp only [List.mem_append, List.mem_singleton] at h
    rcases h with (h | h) | h
    · have h1 := line_range_DrawNode _ t _ 0 a b (le_refl 0) (by decide) h
      rw [hspan] at h1
      dsimp only at h1
      omega
    · exact absurd h (by simp)
    · exact absurd h (not_line_mem_PrintText _ _ _ _ _)

/-- C12 (witness): the circle of node 9 of the tree of `main`, at `(70, 257)`. -/
theorem C12_fits_canvas_width_witness :
    Cmd.DrawCircle ⟨70, 257⟩ 12 ∈ (DrawTree (mainWindow (fun _ => ⟨8, 16⟩)) 5 sampleTree 0).1
      ∧ ((12 : Int) = 12 ∧ (0 : Int) ≤ (⟨70, 257⟩ : CfPoint).x - 12
        ∧ (⟨70, 257⟩ : CfPoint).x + 12 ≤ 700) :=
  ⟨by decide,
    (C12_fits_canvas_width (fun _ => ⟨8, 16⟩) 5 sampleTree).1 ⟨70, 257⟩ 12 (by decide)⟩

/-! ## Claims about the presence of children -/

/-- C13: when `DrawNode` runs on a non-null node (counter `0 ≤ s ≤ 3`), then
independently for the left and the right child: the line from the node's
anchor to the child anchor is emitted iff the child exists, the circle at
the child anchor is emitted iff the child exists, and a label with text `w`
centred on the child anchor is emitted iff the child exists and holds `w`.
With an absent child the output consists of the other side's commands only,
and when the cutoff forbids descending (`¬ s + 1 < iMaxDepth`) the lines,
circles and labels of existing children are still emitted. -/
theorem C13_child_presence (cWin : CWindow) (v : Int) (l r : stNode_t) (pPos : CfPoint)
    (s : Int) (h0 : 0 ≤ s) (h3 : s + 1 ≤ iMaxDepth) :
    ((Cmd.DrawLine pPos (childAnchor pPos s .L) ∈ (DrawNode cWin (.node v l r) pPos s).1
          ↔ l.nonNull = true)
        ∧ (Cmd.DrawCircle (childAnchor pPos s .L) iRadius
            ∈ (DrawNode cWin (.node v l r) pPos s).1 ↔ l.nonNull = true)
        ∧ (∀ w, Cmd.Write (labelAt cWin (childAnchor pPos s .L) w).1 w
            ∈ (DrawNode cWin (.node v l r) pPos s).1 ↔ ∃ ll lr, l = .node w ll lr))
      ∧ ((Cmd.DrawLine pPos (childAnchor pPos s .R) ∈ (DrawNode cWin (.node v l r) pPos s).1
          ↔ r.nonNull = true)
        ∧ (Cmd.DrawCircle (childAnchor pPos s .R) iRadius
            ∈ (DrawNode cWin (.node v l r) pPos s).1 ↔ r.nonNull = true)
        ∧ (∀ w, Cmd.Write (labelAt cWin (childAnchor pPos s .R) w).1 w
            ∈ (DrawNode cWin (.node v l r) pPos s).1 ↔ ∃ rl rr, r = .node w rl rr))
      ∧ (l = .null → (DrawNode cWin (.node v l r) pPos s).1 =
          (if r.nonNull then [Cmd.DrawLine pPos (childAnchor pPos s .R)] else [])
          ++ (if s + 1 < iMaxDepth then
              (DrawNode cWin r (childAnchor pPos s .R) (s + 1)).1 else [])
          ++ (if r.nonNull then [Cmd.DrawCircle (childAnchor pPos s .R) iRadius] else [])
          ++ PrintText cWin r (childAnchor pPos s .R))
      ∧ (r = .null → (DrawNode cWin (.node v l r) pPos s).1 =
          (if l.nonNull then [Cmd.DrawLine pPos (childAnchor pPos s .L)] else [])
          ++ (if s + 1 < iMaxDepth then
              (DrawNode cWin l (childAnchor pPos s .L) (s + 1)).1 else [])
          ++ (if l.nonNull then [Cmd.DrawCircle (childAnchor pPos s .L) iRadius] else [])
          ++ PrintText cWin l (childAnchor pPos s .L))
      ∧ (¬ (s + 1 < iMaxDepth) → (DrawNode cWin (.node v l r) pPos s).1 =
          (if l.nonNull then [Cmd.DrawLine pPos (childAnchor pPos s .L)] else [])
          ++ (if r.nonNull then [Cmd.DrawLine pPos (childAnchor pPos s .R)] else [])
          ++ (if l.nonNull then [Cmd.DrawCircle (childAnchor pPos s .L) iRadius] else [])
          ++ (if r.nonNull then [Cmd.DrawCircle (childAnchor pPos s .R) iRadius] else [])
          ++ PrintText cWin l (childAnchor pPos s .L)
          ++ PrintText cWin r (childAnchor pPos s .R)) := by
  have h3' : s ≤ 3 := by simp only [iMaxDepth] at h3; omega
  have hne := childAnchor_L_ne_R pPos s h0 h3'
  have hy : ∀ e, (childAnchor pPos s e).y = pPos.y + iHeight := by
    intro e; cases e <;> rfl
  have hside : ∀ (e e1 : Dir),
      ((Cmd.DrawLine pPos (childAnchor pPos s e) ∈ (DrawNode cWin (.node v l r) pPos s).1
          ↔ (subtree (.node v l r) [e]).nonNull = true)
        ∧ (Cmd.DrawCircle (childAnchor pPos s e) iRadius
            ∈ (DrawNode cWin (.node v l r) pPos s).1
            ↔ (subtree (.node v l r) [e]).nonNull = true)
        ∧ (∀ w, Cmd.Write (labelAt cWin (childAnchor pPos s e) w).1 w
            ∈ (DrawNode cWin (.node v l r) pPos s).1
            ↔ ∃ ll lr, subtree (.node v l r) [e] = .node w ll lr)) := by
    intro e _
    have hrecline : ∀ (t : stNode_t) (e2 : Dir),
        Cmd.DrawLine pPos (childAnchor pPos s e) ∉
          (DrawNode cWin t (childAnchor pPos s e2) (s + 1)).1 := by
      intro t e2 h
      have := line_start_y_DrawNode cWin t _ _ _ _ h
      rw [hy] at this
      simp only [iHeight] at this; omega
    have hreccirc : ∀ (t : stNode_t) (e2 : Dir) (r0 : Int), s + 1 < iMaxDepth →
        Cmd.DrawCircle (childAnchor pPos s e) r0 ∉
          (DrawNode cWin t (childAnchor pPos s e2) (s + 1)).1 := by
      intro t e2 r0 hlt h
      have := circle_range_DrawNode cWin t _ (s + 1) _ r0 (by omega) (by omega) h
      rw [hy, hy] at this
      simp only [iHeight] at this; omega
    have hreclbl : ∀ (t : stNode_t) (e2 : Dir) (w : Int),
        Cmd.Write (labelAt cWin (childAnchor pPos s e) w).1 w ∉
          (DrawNode cWin t (childAnchor pPos s e2) (s + 1)).1 := by
      intro t e2 w h
      obtain ⟨A, hA, hp⟩ := label_mem_DrawNode cWin t _ _ _ _ h
      have := labelAt_inj cWin _ _ _ hp
      rw [← this, hy, hy] at hA
      simp only [iHeight] at hA; omega
    refine ⟨?_, ?_, ?_⟩
    · rw [mem_DrawNode_node]
      constructor
      · rintro (h | h | h | h | h | h | h | h)
        · cases e
          · simpa [subtree] using h.1
          · injection h.2 with _ hb
            exact absurd hb.symm hne
        · cases e
          · injection h.2 with _ hb
            exact absurd hb hne
          · simpa [subtree] using h.1
        · exact absurd h.2 (hrecline _ _)
        · exact absurd h.2 (hrecline _ _)
        · exact absurd h.2 (by simp)
        · exact absurd h.2 (by simp)
        · exact absurd h (not_line_mem_PrintText _ _ _ _ _)
        · exact absurd h (not_line_mem_PrintText _ _ _ _ _)
      · intro h
        cases e
        · exact Or.inl ⟨by simpa [subtree] using h, rfl⟩
        · exact Or.inr (Or.inl ⟨by simpa [subtree] using h, rfl⟩)
    · rw [mem_DrawNode_node]
      constructor
      · rintro (h | h | h | h | h | h | h | h)
        · exact absurd h.2 (by simp)
        · exact absurd h.2 (by simp)
        · exact absurd h.2 (hreccirc _ _ _ h.1)
        · exact absurd h.2 (hreccirc _ _ _ h.1)
        · cases e
          · simpa [subtree] using h.1
          · injection h.2 with hb _
            exact absurd hb.symm hne
        · cases e
          · injection h.2 with hb _
            exact absurd hb hne
          · simpa [subtree] using h.1
        · exact absurd h (not_circle_mem_PrintText _ _ _ _ _)
        · exact absurd h (not_circle_mem_PrintText _ _ _ _ _)
      · intro h
        cases e
        · exact Or.inr (Or.inr (Or.inr (Or.inr (Or.inl ⟨by simpa [subtree] using h, rfl⟩))))
        · exact Or.inr (Or.inr (Or.inr (Or.inr (Or.inr
            (Or.inl ⟨by simpa [subtree] using h, rfl⟩)))))
    · intro w
      rw [mem_DrawNode_node]
      constructor
      · rintro (h | h | h | h | h | h | h | h)
        · exact absurd h.2 (by simp)
        · exact absurd h.2 (by simp)
        · exact absurd h.2 (hreclbl _ _ _)
        · exact absurd h.2 (hreclbl _ _ _)
        · exact absurd h.2 (by simp)
        · exact absurd h.2 (by simp)
        · obtain ⟨hex, hp⟩ := (mem_PrintText _ _ _ _ _).mp h
          cases e
          · simpa [subtree] using hex
          · exact absurd (labelAt_inj cWin _ _ _ hp).symm hne
        · obtain ⟨hex, hp⟩ := (mem_PrintText _ _ _ _ _).mp h
          cases e
          · exact absurd (labelAt_inj cWin _ _ _ hp) hne
          · simpa [subtree] using hex
      · intro h
        cases e
        · exact Or.inr (Or.inr (Or.inr (Or.inr (Or.inr (Or.inr (Or.inl
            ((mem_PrintText _ _ _ _ _).mpr ⟨by simpa [subtree] using h, rfl⟩)))))))
        · exact Or.inr (Or.inr (Or.inr (Or.inr (Or.inr (Or.inr (Or.inr
            ((mem_PrintText _ _ _ _ _).mpr ⟨by simpa [subtree] using h, rfl⟩)))))))
  refine ⟨by simpa [subtree] using hside .L .L, by simpa [subtree] using hside .R .R,
    ?_, ?_, ?_⟩
  · intro hl
    subst hl
    rw [DrawNode_node_fst]
    simp [stNode_t.nonNull, PrintText, DrawNode]
  · intro hr
    subst hr
    rw [DrawNode_node_fst]
    simp [stNode_t.nonNull, PrintText, DrawNode]
  · intro hlt
    rw [DrawNode_node_fst]
    simp [hlt]

/-- C13 (witness): node 7 of the tree of `main` (left child 8, no right child),
drawn at `(590, 197)` with counter 2. -/
theorem C13_child_presence_witness :
    (0 : Int) ≤ 2 ∧ (2 : Int) + 1 ≤ iMaxDepth
      ∧ (Cmd.DrawLine ⟨590, 197⟩ (childAnchor ⟨590, 197⟩ 2 .L)
          ∈ (DrawNode sampleWindow (.node 7 (.node 8 .null .null) .null) ⟨590, 197⟩ 2).1
          ↔ (stNode_t.node 8 .null .null).nonNull = true)
      ∧ (Cmd.DrawLine ⟨590, 197⟩ (childAnchor ⟨590, 197⟩ 2 .R)
          ∈ (DrawNode sampleWindow (.node 7 (.node 8 .null .null) .null) ⟨590, 197⟩ 2).1
          ↔ stNode_t.null.nonNull = true) :=
  ⟨by decide, by decide,
    (C13_child_presence sampleWindow 7 (.node 8 .null .null) .null ⟨590, 197⟩ 2
      (by decide) (by decide)).1.1,
    (C13_child_presence sampleWindow 7 (.node 8 .null .null) .null ⟨590, 197⟩ 2
      (by decide) (by decide)).2.1.1⟩

/-! ## Claims about positions and the root marker -/

/-- C14: the position of a drawn node depends only on the root anchor and on
its path. If two trees both have a node at the same path of length at most 4,
then in both drawings the node's circle is centred at the same point, the
anchor of the path, and the node's label is centred there too; that point has
`y = rootY + depth * 60` and is the anchor of no other path. -/
theorem C14_position_from_path (cWin : CWindow) (d1 d2 : Int) (t1 t2 : stNode_t)
    (p : List Dir) (hp : p.length ≤ 4) (h1 : (subtree t1 p).nonNull = true)
    (h2 : (subtree t2 p).nonNull = true) :
    Cmd.DrawCircle (anchorAt (rootAnchor cWin) 0 p) iRadius ∈ (DrawTree cWin d1 t1 0).1
      ∧ Cmd.DrawCircle (anchorAt (rootAnchor cWin) 0 p) iRadius ∈ (DrawTree cWin d2 t2 0).1
      ∧ Cmd.Write (labelAt cWin (anchorAt (rootAnchor cWin) 0 p) (subtree t1 p).value).1
          (subtree t1 p).value ∈ (DrawTree cWin d1 t1 0).1
      ∧ Cmd.Write (labelAt cWin (anchorAt (rootAnchor cWin) 0 p) (subtree t2 p).value).1
          (subtree t2 p).value ∈ (DrawTree cWin d2 t2 0).1
      ∧ (anchorAt (rootAnchor cWin) 0 p).y = (rootAnchor cWin).y + p.length * 60
      ∧ (∀ q : List Dir, anchorAt (rootAnchor cWin) 0 q = anchorAt (rootAnchor cWin) 0 p →
          q = p) := by
  have key : ∀ (d : Int) (t : stNode_t), (subtree t p).nonNull = true →
      Cmd.DrawCircle (anchorAt (rootAnchor cWin) 0 p) iRadius ∈ (DrawTree cWin d t 0).1
        ∧ Cmd.Write (labelAt cWin (anchorAt (rootAnchor cWin) 0 p) (subtree t p).value).1
          (subtree t p).value ∈ (DrawTree cWin d t 0).1 := by
    intro d t hn
    obtain ⟨pre, post, heq, _, _, _, _, hlbl⟩ := markerSplit_DrawTree cWin d t p hp hn
    rw [heq]
    refine ⟨by simp, ?_⟩
    have : Cmd.Write (labelAt cWin (anchorAt (rootAnchor cWin) 0 p) (subtree t p).value).1
        (subtree t p).value ∈ post := by
      apply hlbl
      rw [PrintText_eq, if_pos hn]
      exact List.mem_singleton.mpr rfl
    simp [this]
  refine ⟨(key d1 t1 h1).1, (key d2 t2 h2).1, (key d1 t1 h1).2, (key d2 t2 h2).2, ?_, ?_⟩
  · rw [anchorAt_y]
    simp only [iHeight]
    ring
  · intro q hq
    exact anchorAt_inj q p _ 0 (le_refl 0) (by simp only [iMaxDepth]; omega) hq

/-- C14 (witness): the node at path L,L in the tree of `main` (value 4) and in
the left chain `deepTree` (value 3): both circles are at `(110, 197)`. -/
theorem C14_position_from_path_witness :
    ([Dir.L, .L] : List Dir).length ≤ 4
      ∧ (subtree sampleTree [.L, .L]).nonNull = true
      ∧ (subtree deepTree [.L, .L]).nonNull = true
      ∧ anchorAt (rootAnchor sampleWindow) 0 [.L, .L] = ⟨110, 197⟩
      ∧ Cmd.DrawCircle (anchorAt (rootAnchor sampleWindow) 0 [.L, .L]) iRadius
          ∈ (DrawTree sampleWindow 5 sampleTree 0).1
      ∧ Cmd.DrawCircle (anchorAt (rootAnchor sampleWindow) 0 [.L, .L]) iRadius
          ∈ (DrawTree sampleWindow 5 deepTree 0).1 :=
  ⟨by decide, by decide, by decide, by decide,
    (C14_position_from_path sampleWindow 5 5 sampleTree deepTree [.L, .L]
      (by decide) (by decide) (by decide)).1,
    (C14_position_from_path sampleWindow 5 5 sampleTree deepTree [.L, .L]
      (by decide) (by decide) (by decide)).2.1⟩

/-- C15: the depth counter is restored on every exit. For every tree (the null
pointer included) and every starting value `c` of the static counter, the
counter equals `c` again when `DrawNode` returns; after `DrawTree` returns it
is 0 as before the call. -/
theorem C15_counter_restored (cWin : CWindow) (t : stNode_t) (pPos : CfPoint) (c d : Int) :
    (DrawNode cWin t pPos c).2 = c ∧ (DrawNode cWin .null pPos c).2 = c
      ∧ (DrawTree cWin d t 0).2 = 0 :=
  ⟨DrawNode_snd cWin t pPos c, rfl, DrawTree_snd cWin d t 0⟩

/-- C16: for every tree with a non-null root, the command sequence of
`DrawTree` is the sequence of `DrawNode` followed by exactly two commands, the
root's circle and the root's label, centred on the root anchor
`(cx / 2, iRadius + 65 = 77)`; `DrawNode` emits neither of them, so each occurs
exactly once. -/
theorem C16_root_marker_last (cWin : CWindow) (d : Int) (t : stNode_t)
    (ht : t.nonNull = true) :
    (DrawTree cWin d t 0).1 =
        (DrawNode cWin t (rootAnchor cWin) 0).1
          ++ [Cmd.DrawCircle (rootAnchor cWin) iRadius,
              Cmd.Write (labelAt cWin (rootAnchor cWin) t.value).1 t.value]
      ∧ rootAnchor cWin = ⟨Int.tdiv cWin.cx 2, 77⟩ ∧ iRadius = 12
      ∧ (∀ r, Cmd.DrawCircle (rootAnchor cWin) r ∉ (DrawNode cWin t (rootAnchor cWin) 0).1)
      ∧ Cmd.Write (labelAt cWin (rootAnchor cWin) t.value).1 t.value
          ∉ (DrawNode cWin t (rootAnchor cWin) 0).1
      ∧ (DrawTree cWin d t 0).1.count (Cmd.DrawCircle (rootAnchor cWin) iRadius) = 1
      ∧ (DrawTree cWin d t 0).1.count
          (Cmd.Write (labelAt cWin (rootAnchor cWin) t.value).1 t.value) = 1 := by
  have heq : (DrawTree cWin d t 0).1 =
      (DrawNode cWin t (rootAnchor cWin) 0).1
        ++ [Cmd.DrawCircle (rootAnchor cWin) iRadius,
            Cmd.Write (labelAt cWin (rootAnchor cWin) t.value).1 t.value] := by
    rw [DrawTree_fst, PrintText_eq, if_pos ht, List.append_assoc]
    rfl
  have hc : ∀ r, Cmd.DrawCircle (rootAnchor cWin) r ∉ (DrawNode cWin t (rootAnchor cWin) 0).1 := by
    intro r h
    have := circle_range_DrawNode cWin t _ 0 _ r (le_refl 0) (by decide) h
    simp only [iHeight] at this
    omega
  have hw := write_not_mem_DrawNode_root cWin t (rootAnchor cWin) 0 t.value
  refine ⟨heq, rfl, rfl, hc, hw, ?_, ?_⟩
  · rw [heq, List.count_append, List.count_eq_zero_of_not_mem (hc iRadius)]
    simp
  · rw [heq, List.count_append, List.count_eq_zero_of_not_mem hw]
    simp

/-- C16 (witness): the tree of `main` in a window 700 wide. -/
theorem C16_root_marker_last_witness :
    sampleTree.nonNull = true
      ∧ (DrawTree sampleWindow 5 sampleTree 0).1 =
        (DrawNode sampleWindow sampleTree (rootAnchor sampleWindow) 0).1
          ++ [Cmd.DrawCircle (rootAnchor sampleWindow) iRadius,
              Cmd.Write (labelAt sampleWindow (rootAnchor sampleWindow) sampleTree.value).1
                sampleTree.value] :=
  ⟨by decide, (C16_root_marker_last sampleWindow 5 sampleTree (by decide)).1⟩

/-! ## Claims about the depth counter -/

/-- C17: the implementation with the hidden static counter emits, started
with the counter at 0, exactly the command sequence of the
depth-parameterised algorithm of the specification called with depth 0 (and
leaves the counter at 0). -/
theorem C17_static_counter_refines_depth_parameter (cWin : CWindow) (t : stNode_t)
    (pPos : CfPoint) :
    (DrawNode cWin t pPos 0).1 = specDrawNode sourceConfig cWin t pPos 0
      ∧ (DrawNode cWin t pPos 0).2 = 0 :=
  ⟨DrawNode_eq_specDrawNode cWin t pPos 0 (by decide), DrawNode_snd cWin t pPos 0⟩

/-- C18: `DrawTree` is a total function of the (finite) tree and returns a
command sequence of at most 92 commands whatever the height of the tree; in
the recorded run of `DrawNode` the invocations on non-null nodes are nested at
most `iMaxDepth = 4` deep and are at most 15 in number. The left chain of
height 6 reaches nesting 4. -/
theorem C18_bounded_recursion (cWin : CWindow) (d : Int) (t : stNode_t) :
    (∃ out, DrawTree cWin d t 0 = (out, 0) ∧ out.length ≤ 92)
      ∧ ((DrawNodeTrace cWin t (rootAnchor cWin) 0).cmds,
          (DrawNodeTrace cWin t (rootAnchor cWin) 0).iDepth)
          = DrawNode cWin t (rootAnchor cWin) 0
      ∧ (DrawNodeTrace cWin t (rootAnchor cWin) 0).nesting ≤ 4
      ∧ (DrawNodeTrace cWin t (rootAnchor cWin) 0).offsetDepths.length ≤ 15
      ∧ (DrawNodeTrace sampleWindow deepTree (rootAnchor sampleWindow) 0).nesting = 4 := by
  obtain ⟨h1, h2, _, _, h5⟩ :=
    DrawNodeTrace_inv cWin t 4 0 (rootAnchor cWin) (by decide) (by decide)
  have heq := DrawNodeTrace_eq cWin t (rootAnchor cWin) 0
  have hcalls : (DrawNodeTrace cWin t (rootAnchor cWin) 0).offsetDepths.length ≤ 15 := by
    have : (2 : Nat) ^ 4 = 16 := by decide
    omega
  refine ⟨⟨(DrawTree cWin d t 0).1, ?_, ?_⟩, heq, h1, hcalls, by decide⟩
  · exact Prod.ext rfl (DrawTree_snd cWin d t 0)
  · rw [DrawTree_fst, ← heq]
    have e2 : (PrintText cWin t (rootAnchor cWin)).length ≤ 1 := by
      cases t <;> simp [PrintText]
    simp only [List.length_append, List.length_singleton]
    omega

/-- C19: `DrawTree` ignores its depth argument. For every tree, window,
counter value and any two depth arguments the results are equal; the cutoff
is always the constant `iMaxDepth = 4` (the drawing is that of the tree cut
below depth 4, and cutting below depth 3 changes it, whatever the argument). -/
theorem C19_depth_argument_ignored (cWin : CWindow) (d1 d2 : Int) (t : stNode_t) (s : Int) :
    DrawTree cWin d1 t s = DrawTree cWin d2 t s
      ∧ (DrawTree cWin d1 t 0).1 = (DrawTree cWin d2 (truncate 4 t) 0).1
      ∧ DrawTree sampleWindow 4 sampleTree 0 = DrawTree sampleWindow 5 sampleTree 0
      ∧ DrawTree sampleWindow d1 (truncate 3 deepTree) 0 ≠ DrawTree sampleWindow d1 deepTree 0 := by
  have h : ∀ (w : CWindow) (d : Int) (u : stNode_t) (c : Int),
      DrawTree w d u c = DrawTree w 0 u c := fun _ _ _ _ => rfl
  refine ⟨rfl, ?_, rfl, ?_⟩
  · rw [DrawTree_fst, DrawTree_fst, DrawNode_truncate cWin t 4 0 _ (by decide) (by decide),
      PrintText_truncate]
  · rw [h sampleWindow d1 (truncate 3 deepTree) 0, h sampleWindow d1 deepTree 0]
    decide

/-- C20: in the run of `DrawNode` that `DrawTree` starts with the counter at 0,
every time the offset is computed the counter `c` satisfies
`0 ≤ c < iMaxDepth`; so the exponent `iMaxDepth - c` is at least 1, the power is
an exact integer power of two, the division by 2 is exact, and the offset is
positive and a multiple of `iDist = 20`. Every value the counter is set to
lies in `0 .. iMaxDepth`. -/
theorem C20_offset_depth_in_range (cWin : CWindow) (t : stNode_t) :
    (∀ c ∈ (DrawNodeTrace cWin t (rootAnchor cWin) 0).offsetDepths,
        (0 ≤ c ∧ c < iMaxDepth)
          ∧ 1 ≤ iMaxDepth - c
          ∧ intPow2 (iMaxDepth - c) = 2 ^ (iMaxDepth - c).toNat
          ∧ 2 * iAddDist c = intPow2 (iMaxDepth - c) * iDist
          ∧ 0 < iAddDist c
          ∧ iAddDist c % iDist = 0)
      ∧ (∀ c ∈ (DrawNodeTrace cWin t (rootAnchor cWin) 0).counterValues,
          0 ≤ c ∧ c ≤ iMaxDepth)
      ∧ ((DrawNodeTrace cWin t (rootAnchor cWin) 0).cmds,
          (DrawNodeTrace cWin t (rootAnchor cWin) 0).iDepth)
          = DrawNode cWin t (rootAnchor cWin) 0 := by
  obtain ⟨_, _, h3, h4, _⟩ :=
    DrawNodeTrace_inv cWin t 4 0 (rootAnchor cWin) (by decide) (by decide)
  refine ⟨?_, h4, DrawNodeTrace_eq cWin t (rootAnchor cWin) 0⟩
  intro c hc
  obtain ⟨hc0, hc4⟩ := h3 c hc
  simp only [iMaxDepth] at hc4
  interval_cases c <;> decide

/-- C20 (witness): in the run on the tree of `main` the offset is computed with
the counter at 3 (for node 4, among others). -/
theorem C20_offset_depth_in_range_witness :
    (3 : Int) ∈ (DrawNodeTrace sampleWindow sampleTree (rootAnchor sampleWindow) 0).offsetDepths
      ∧ ((0 : Int) ≤ 3 ∧ (3 : Int) < iMaxDepth)
      ∧ iAddDist 3 = 20 :=
  ⟨by decide,
    ((C20_offset_depth_in_range sampleWindow sampleTree).1 3 (by decide)).1,
    by decide⟩

end DrawBinaryTree
